import Mathlib

/-!
Verification development for the libxget-js chunked HTTP retriever.

The definitions below are a shallow embedding of the repository's source:

* the range planner (`parseSplitSpec`, `buildChunks`) and the per-segment
  retry `Range` header, from `lib/index.js`;
* the metadata probe (`getContentLoop`, `getContentStructModel`,
  `xHeadDataModel`, `initHeadModel`), from `lib/index.js`;
* the bounded reassembly buffer (`readOn`, `dispatchIter`, `dispatchAllocs`,
  `allocOn`, `readBytesOn`), from `lib/streamCache.js`.

JavaScript numbers that can be `Infinity`/`NaN` on the modelled paths are
embedded as `XNum`; ordinary indices, counters and byte counts are exact
`Int`/`Nat` (double-precision rounding is out of scope for the sizes the
code handles).  Stateful code is explicit state passing; the unbounded
dispatcher loop takes an explicit fuel argument and a run that would throw
a `TypeError` (or run out of fuel) yields `none`.
-/

/-- JS numeric values reaching the planner/probe: finite numbers (modelled
exactly as integers), `Infinity`, `-Infinity` and `NaN`. -/
inductive XNum where
  | fin (q : Int)
  | inf
  | negInf
  | nan
deriving Repr, DecidableEq

/-- JS addition on `XNum` (`a + b`). -/
def xadd : XNum → XNum → XNum
  | XNum.fin a, XNum.fin b => XNum.fin (a + b)
  | XNum.fin _, XNum.inf => XNum.inf
  | XNum.fin _, XNum.negInf => XNum.negInf
  | XNum.inf, XNum.fin _ => XNum.inf
  | XNum.inf, XNum.inf => XNum.inf
  | XNum.inf, XNum.negInf => XNum.nan
  | XNum.negInf, XNum.fin _ => XNum.negInf
  | XNum.negInf, XNum.inf => XNum.nan
  | XNum.negInf, XNum.negInf => XNum.negInf
  | XNum.nan, _ => XNum.nan
  | _, XNum.nan => XNum.nan

/-- JS subtraction on `XNum` (`a - b`). -/
def xsub : XNum → XNum → XNum
  | XNum.fin a, XNum.fin b => XNum.fin (a - b)
  | XNum.fin _, XNum.inf => XNum.negInf
  | XNum.fin _, XNum.negInf => XNum.inf
  | XNum.inf, XNum.fin _ => XNum.inf
  | XNum.inf, XNum.inf => XNum.nan
  | XNum.inf, XNum.negInf => XNum.inf
  | XNum.negInf, XNum.fin _ => XNum.negInf
  | XNum.negInf, XNum.inf => XNum.negInf
  | XNum.negInf, XNum.negInf => XNum.nan
  | XNum.nan, _ => XNum.nan
  | _, XNum.nan => XNum.nan

/-- JS multiplication of an `XNum` by an integer (`a * k`). -/
def xmulInt : XNum → Int → XNum
  | XNum.fin a, k => XNum.fin (a * k)
  | XNum.inf, k => if k > 0 then XNum.inf else if k < 0 then XNum.negInf else XNum.nan
  | XNum.negInf, k => if k > 0 then XNum.negInf else if k < 0 then XNum.inf else XNum.nan
  | XNum.nan, _ => XNum.nan

/-- JS `Math.floor(a / d)` on `XNum`, `d` an integer.  For finite `a` and
`d ≠ 0` this is exact floor division (`Int.fdiv`). -/
def xfloorDiv : XNum → Int → XNum
  | XNum.fin a, d =>
      if d = 0 then (if a > 0 then XNum.inf else if a < 0 then XNum.negInf else XNum.nan)
      else XNum.fin (Int.fdiv a d)
  | XNum.inf, d => if d < 0 then XNum.negInf else XNum.inf
  | XNum.negInf, d => if d < 0 then XNum.inf else XNum.negInf
  | XNum.nan, _ => XNum.nan

/-- JS `<` on `XNum` (`NaN` compares false to everything). -/
def xltb : XNum → XNum → Bool
  | XNum.fin a, XNum.fin b => a < b
  | XNum.fin _, XNum.inf => true
  | XNum.fin _, XNum.negInf => false
  | XNum.inf, _ => false
  | XNum.negInf, XNum.fin _ => true
  | XNum.negInf, XNum.inf => true
  | XNum.negInf, XNum.negInf => false
  | XNum.nan, _ => false
  | _, XNum.nan => false

/-- JS `<=` on `XNum` (`NaN` compares false to everything). -/
def xleb : XNum → XNum → Bool
  | XNum.fin a, XNum.fin b => a ≤ b
  | XNum.fin _, XNum.inf => true
  | XNum.fin _, XNum.negInf => false
  | XNum.fin _, XNum.nan => false
  | XNum.inf, XNum.inf => true
  | XNum.inf, _ => false
  | XNum.negInf, XNum.nan => false
  | XNum.negInf, _ => true
  | XNum.nan, _ => false

/-- JS `Number.isFinite`. -/
def xIsFinite : XNum → Bool
  | XNum.fin _ => true
  | _ => false

/-- Decimal rendering of an `XNum` as JS template literals produce it for
the integral values flowing through the planner. -/
def xToString : XNum → String
  | XNum.fin q => toString q
  | XNum.inf => "Infinity"
  | XNum.negInf => "-Infinity"
  | XNum.nan => "NaN"

/-! ## Range planner (`parseSplitSpec` / `buildChunks`, lib/index.js) -/

/-- Result record of `parseSplitSpec(total, numberOfparts)`. -/
structure SplitSpec where
  total : XNum
  chunkSize : XNum
  numberOfparts : Int
  lastChunkSize : XNum
deriving Repr, DecidableEq

/-- `parseSplitSpec(total, numberOfparts)`:
`chunkSize = Math.floor(total / numberOfparts)` and
`lastChunkSize = numberOfparts !== 1 ? total - chunkSize * (numberOfparts - 1) : chunkSize`. -/
def parseSplitSpec (total : XNum) (numberOfparts : Int) : SplitSpec :=
  let chunkSize := xfloorDiv total numberOfparts
  { total := total
    chunkSize := chunkSize
    numberOfparts := numberOfparts
    lastChunkSize :=
      if numberOfparts ≠ 1 then xsub total (xmulInt chunkSize (numberOfparts - 1))
      else chunkSize }

/-- One planned segment range: `{min, max, size}` as built by `buildChunks`
(the `stream`/request factory is modelled separately by
`chunkRangeHeader`). -/
structure XChunk where
  min : XNum
  max : XNum
  size : XNum
deriving Repr, DecidableEq

/-- The per-chunk size list `[...Array(numberOfparts - 1).fill(chunkSize), lastChunkSize]`.
(For `numberOfparts ≤ 0` the JS `Array` constructor would throw; the model
is used with `numberOfparts ≥ 1`.) -/
def chunkSizeList (spec : SplitSpec) : List XNum :=
  List.replicate (spec.numberOfparts - 1).toNat spec.chunkSize ++ [spec.lastChunkSize]

/-- The reduce body of `buildChunks`: `min = i === 0 ? start || 0 : r[i-1].max + 1`
and `max = min + v - 1`, threaded as the next `min` down the list. -/
def buildChunksAux (mn : XNum) : List XNum → List XChunk
  | [] => []
  | v :: rest =>
      let mx := xsub (xadd mn v) (XNum.fin 1)
      { min := mn, max := mx, size := v } :: buildChunksAux (xadd mx (XNum.fin 1)) rest

/-- `buildChunks(url, spec, opts, {retries, start})` restricted to the range
plan it constructs (`start || 0` equals `start` for every numeric start). -/
def buildChunks (spec : SplitSpec) (start : Int) : List XChunk :=
  buildChunksAux (XNum.fin start) (chunkSizeList spec)

/-- The `Range` header issued for a chunk when its resilient source
(re)starts after `bytesRead` delivered bytes:
`bytes=${min + bytesRead}-${Number.isFinite(max) ? max : ''}`. -/
def chunkRangeHeader (c : XChunk) (bytesRead : Int) : String :=
  "bytes=" ++ xToString (xadd c.min (XNum.fin bytesRead)) ++ "-" ++
    (if xIsFinite c.max then xToString c.max else "")

/-! ## Metadata probe (`getContentStruct` / `xHeadData` / `initHead`, lib/index.js) -/

/-- First decimal digit, by fuel-bounded repeated division (structural so
that concrete status codes evaluate by `decide`; `n` itself bounds the
number of digits). -/
def firstDigitAux : Nat → Nat → Nat
  | 0, n => n
  | fuel + 1, n => if n < 10 then n else firstDigitAux fuel (n / 10)

/-- First decimal digit of a natural number. -/
def firstDigit (n : Nat) : Nat := firstDigitAux n n

/-- `checkIsValidStatusCode`: the status is truthy, numeric, and its decimal
rendering starts with the character `2`. -/
def checkIsValidStatusCode (status : Nat) : Bool :=
  status ≠ 0 && firstDigit status == 2

/-- The probe-relevant response headers. -/
structure ProbeHeaders where
  contentLength : Option Nat
  contentRange : Option Nat
  acceptRanges : Bool
deriving Repr, DecidableEq

/-- An HTTP response as seen by the probe. -/
structure HttpResponse where
  status : Nat
  headers : ProbeHeaders
deriving Repr, DecidableEq

/-- The `content-length` slot of the probe headers after `getContentStruct`
may hold the original header string, or a number the code wrote into it
(the parsed `content-range` total, or `Infinity`). -/
inductive CLen where
  | absent
  | strVal (n : Nat)
  | numVal (x : XNum)
deriving Repr, DecidableEq

/-- JS truthiness of the `content-length` slot: a present header string is
truthy (even `"0"`), the number `0` is falsy, `Infinity` is truthy. -/
def clTruthy : CLen → Bool
  | CLen.absent => false
  | CLen.strVal _ => true
  | CLen.numVal (XNum.fin q) => q ≠ 0
  | CLen.numVal XNum.nan => false
  | CLen.numVal _ => true

/-- `parseFloat` of the `content-length` slot. -/
def clValue : CLen → XNum
  | CLen.absent => XNum.nan
  | CLen.strVal n => XNum.fin n
  | CLen.numVal x => x

/-- A `retry` event as emitted by the response interceptor in
`getContentStruct` (probe retries) — the error object is reduced to the
HTTP status it carried, if any. -/
structure RetryEvent where
  meta : Bool
  retryCount : Nat
  maxRetries : Nat
  lastErrStatus : Option Nat
deriving Repr, DecidableEq

/-- How the probe can fail: an HTTP response axios rejected (non-2xx), a
transport error with no response, exhaustion of the modelled attempt trace,
or the (dead, see `checkIsValidStatusCode`) `XgetNetException` path. -/
inductive ProbeErr where
  | http (status : Nat)
  | network
  | noAttempt
  | net (status : Nat)
deriving Repr, DecidableEq

/-- The retrying request loop of `getContentStruct`: each attempt consumes
one element of the environment trace (`none` = transport error without a
response).  axios resolves only 2xx responses (default `validateStatus`);
any other outcome enters the error interceptor, which retries while
`retryCount < retries` and the response status is not 403, emitting a
meta-tagged `retry` event per retry. -/
def getContentLoop (retries : Nat) : Nat → List (Option HttpResponse) →
    List RetryEvent × Except ProbeErr HttpResponse
  | _, [] => ([], Except.error ProbeErr.noAttempt)
  | rc, a :: rest =>
    match a with
    | some resp =>
        if 200 ≤ resp.status ∧ resp.status < 300 then ([], Except.ok resp)
        else if rc < retries ∧ resp.status ≠ 403 then
          let out := getContentLoop retries (rc + 1) rest
          ({ meta := true, retryCount := rc + 1, maxRetries := retries,
             lastErrStatus := some resp.status } :: out.1, out.2)
        else ([], Except.error (ProbeErr.http resp.status))
    | none =>
        if rc < retries then
          let out := getContentLoop retries (rc + 1) rest
          ({ meta := true, retryCount := rc + 1, maxRetries := retries,
             lastErrStatus := none } :: out.1, out.2)
        else ([], Except.error ProbeErr.network)

/-- The data `getContentStruct` returns: status plus the (possibly
rewritten) headers and the `unHEADRangeable` marker. -/
structure GetData where
  status : Nat
  contentLength : CLen
  contentRange : Option Nat
  acceptRanges : Bool
  unHEADRangeable : Option Bool
deriving Repr, DecidableEq

/-- Header post-processing in `getContentStruct`: mark `unHEADRangeable`
on a 416 status; if `content-length` is falsy, fill it from a present
`content-range` total (clearing `unHEADRangeable`) or with `Infinity`. -/
def respToGetData (resp : HttpResponse) : GetData :=
  let base : GetData :=
    { status := resp.status
      contentLength :=
        match resp.headers.contentLength with
        | some n => CLen.strVal n
        | none => CLen.absent
      contentRange := resp.headers.contentRange
      acceptRanges := resp.headers.acceptRanges
      unHEADRangeable := if resp.status = 416 then some true else none }
  if ¬ clTruthy base.contentLength then
    match resp.headers.contentRange with
    | some len =>
        { base with contentLength := CLen.numVal (XNum.fin len), unHEADRangeable := some false }
    | none => { base with contentLength := CLen.numVal XNum.inf }
  else base

/-- `getContentStruct(store)`: run the retried ranged GET, then post-process
the headers of the resolved response. -/
def getContentStructModel (retries : Nat) (attempts : List (Option HttpResponse)) :
    List RetryEvent × Except ProbeErr GetData :=
  let out := getContentLoop retries 0 attempts
  (out.1, out.2.map respToGetData)

/-- The orchestrator `store` fields read and written by the probe
(`xonstructor` initialises `size`/`start`/`chunks`/`retries` from `opts`,
`chunkable := true`, `totalSize := null`). -/
structure HeadStore where
  size : Option XNum
  start : Int
  chunks : Int
  retries : Nat
  chunkable : Bool
  totalSize : Option XNum
  chunkStack : List XChunk
  loaded : Bool
  ended : Bool
deriving Repr, DecidableEq

/-- The store as `xonstructor` leaves it before the probe runs. -/
def mkStore (optsSize : Option XNum) (optsStart : Int) (optsChunks : Int)
    (optsRetries : Nat) : HeadStore :=
  { size := optsSize, start := optsStart, chunks := optsChunks, retries := optsRetries,
    chunkable := true, totalSize := none, chunkStack := [], loaded := false, ended := false }

/-- `Number.isFinite` on a possibly-`null` store field. -/
def optIsFinite : Option XNum → Bool
  | some x => xIsFinite x
  | none => false

/-- A possibly-`null` store field used in arithmetic or comparison; JS
coerces `null` to `0`. -/
def optGetNum : Option XNum → XNum
  | some x => x
  | none => XNum.fin 0

/-- The `loadData` record resolved by `xHeadData`. -/
structure LoadData where
  size : XNum
  start : Int
  chunkable : Bool
  totalSize : Option XNum
  chunkStack : List XChunk
deriving Repr, DecidableEq

/-- `acceptsRanges` in `xHeadData`:
`typeof unHEADRangeable === 'boolean' ? !unHEADRangeable : headers['accept-ranges'] === 'bytes'`. -/
def xAcceptsRanges (g : GetData) : Bool :=
  match g.unHEADRangeable with
  | some b => !b
  | none => g.acceptRanges

/-- The totalSize learned from the probe headers:
`headers['content-length'] ? parseFloat(headers['content-length']) : Infinity`. -/
def xTotalSizeLearned (g : GetData) : XNum :=
  if clTruthy g.contentLength then clValue g.contentLength else XNum.inf

/-- The store mutations `xHeadData` performs after a validated probe, in
source order: learn `totalSize` (only when no finite `size` is preset),
decide `chunkable` (forcing one chunk otherwise), apply the `headHandler`
offset override (`offset` is its awaited return value when that is a
number; the start is forced to 0 without range support), derive `size`,
adjust the chunk count when `size < chunks`, and build the chunk stack. -/
def xHeadUpdate (store : HeadStore) (offset : Option Int) (g : GetData) : HeadStore :=
  let acceptsRanges := xAcceptsRanges g
  let store1 :=
    if ¬ optIsFinite store.size then { store with totalSize := some (xTotalSizeLearned g) }
    else store
  let chunkable := acceptsRanges && optIsFinite store1.totalSize
  let store2 :=
    { store1 with chunkable := chunkable, chunks := if chunkable then store1.chunks else 1 }
  let store3 :=
    { store2 with start := if ¬ acceptsRanges then 0 else offset.getD store2.start }
  let store4 :=
    if ¬ optIsFinite store3.size then
      { store3 with size := some (xsub (optGetNum store3.totalSize) (XNum.fin store3.start)) }
    else store3
  let store5 :=
    if xltb (optGetNum store4.size) (XNum.fin store4.chunks) then
      { store4 with chunks := if xltb (optGetNum store4.size) (XNum.fin 5) then 1 else 5 }
    else store4
  { store5 with
      chunkStack := buildChunks (parseSplitSpec (optGetNum store5.size) store5.chunks) store5.start }

/-- `xHeadData(store, opts)`: probe, validate the status, apply
`xHeadUpdate`, and resolve the `loadData`.  Returns the emitted meta-retry
events, the store after the call, and the `loadData` or the rejection. -/
def xHeadDataModel (store : HeadStore) (offset : Option Int)
    (attempts : List (Option HttpResponse)) :
    List RetryEvent × HeadStore × Except ProbeErr LoadData :=
  let probed := getContentStructModel store.retries attempts
  match probed.2 with
  | Except.error e => (probed.1, store, Except.error e)
  | Except.ok g =>
    if ¬ checkIsValidStatusCode g.status then
      (probed.1, store, Except.error (ProbeErr.net g.status))
    else
      let st := xHeadUpdate store offset g
      (probed.1, st,
        Except.ok
          { size := optGetNum st.size, start := st.start, chunkable := st.chunkable,
            totalSize := st.totalSize, chunkStack := st.chunkStack })

/-- What `initHead` does with the probe result. -/
inductive InitOutcome where
  | probeFailed (e : ProbeErr)
  | destroyed (start : Int) (totalSize : Option XNum)
  | endedEarly
  | loadEmitted (ld : LoadData)
deriving Repr, DecidableEq

/-- `initHead(store, opts)`: on probe success mark the store loaded, then
destroy the stream with the range-exceeded error (carrying `store.start`
and `store.totalSize`) when `loadData.size < 0`; end the output immediately
(`store.ended := true`, `push(null)`) when `loadData.size === 0`; otherwise
emit `loaded` and proceed towards `handleLoad` (which starts the
segments). -/
def initHeadModel (store : HeadStore) (offset : Option Int)
    (attempts : List (Option HttpResponse)) :
    List RetryEvent × HeadStore × InitOutcome :=
  let out := xHeadDataModel store offset attempts
  match out.2.2 with
  | Except.error e => (out.1, out.2.1, InitOutcome.probeFailed e)
  | Except.ok ld =>
    let st1 := { out.2.1 with loaded := true }
    if xltb ld.size (XNum.fin 0) then (out.1, st1, InitOutcome.destroyed st1.start st1.totalSize)
    else if ld.size = XNum.fin 0 then (out.1, { st1 with ended := true }, InitOutcome.endedEarly)
    else (out.1, st1, InitOutcome.loadEmitted ld)

/-! ## Reassembly buffer (`StreamCache`, lib/streamCache.js)

State of one `StreamCache` with its child `CachingStream`s.  Streams are
identified by their index into `slots`; byte buffers are lists of bytes; a
`none` chunk is the `null` end-of-stream sentinel written by `_final`.
Completion callbacks are identified by caller-chosen ids and
`calledCallbacks` records the invoked ones in order.  The observational
metrics (`meta.max` / `averageMetaTick`) are not modelled.  A step that
would throw a `TypeError` in JS — in particular processing the degenerate
queue entry `{...props, chunk: overflow}` built by the `reallocate` branch,
whose `stream`/`stack`/`callback` fields are `undefined` because `props` is
the array returned by `splice` — is modelled as `none`/`crash`. -/

/-- A byte buffer. -/
abbrev ByteChunk := List Nat

/-- Per-stream state: `{buffer, pendingWrites, pendingReads}` (counters are
JS numbers, hence `Int`). -/
structure Slot where
  buffer : List (Option ByteChunk)
  pendingWrites : Int
  pendingReads : Int
deriving Repr, DecidableEq

/-- An entry of the shared `allocBuffer` admit queue.  `slotId`/`callbackId`
are `none` exactly when the corresponding JS field is `undefined` (the
degenerate reallocate entry). -/
structure AllocEntry where
  slotId : Option Nat
  chunk : Option ByteChunk
  callbackId : Option Nat
deriving Repr, DecidableEq

/-- The `#store` of a `StreamCache` (minus metrics), plus the callback
invocation log. -/
structure SC where
  slots : List Slot
  length : Int
  reallocate : Bool
  allocBuffer : List AllocEntry
  maxCapacity : Int
  calledCallbacks : List Nat
deriving Repr, DecidableEq

/-- `new StreamCache(opts)` with `opts.size` (through `setCapacity`, whose
physical-memory validation is not modelled) and `opts.reallocate`. -/
def mkStreamCache (size : Option Int) (reallocate : Bool) : SC :=
  { slots := [], length := 0, reallocate := reallocate, allocBuffer := [],
    maxCapacity := size.getD 209715200, calledCallbacks := [] }

/-- `cache.new()`: register a fresh child stream with an empty stack. -/
def SC.newStream (s : SC) : SC :=
  { s with slots := s.slots ++ [{ buffer := [], pendingWrites := 0, pendingReads := 0 }] }

/-- `setCapacity(n)` (validation against physical memory not modelled). -/
def SC.setCapacity (s : SC) (capacity : Int) : SC :=
  { s with maxCapacity := capacity }

/-- Result of `#readOn`: the updated slot and global length, whether a read
was satisfied (`success` = the JS `true` return), and whether it was
satisfied from the `altChunk` bypass (in which case the caller-supplied
`altHandler` runs). -/
structure ReadOnOut where
  slot : Slot
  length : Int
  success : Bool
  usedAlt : Bool
deriving Repr, DecidableEq

/-- The `altChunk` fallback of `#readOn`: with pending readers and a
provided `altChunk` (a buffer or the explicit `null` sentinel), deliver it
directly, decrementing both counters. -/
def readOnAlt (slot : Slot) (len : Int) (alt : Option (Option ByteChunk)) : ReadOnOut :=
  if slot.pendingReads ≠ 0 ∧ alt.isSome then
    { slot :=
        { slot with
            pendingWrites := slot.pendingWrites - 1
            pendingReads := slot.pendingReads - 1 }
      length := len, success := true, usedAlt := true }
  else { slot := slot, length := len, success := false, usedAlt := false }

/-- `#readOn(stream, stack, altChunk, altHandler)`: with pending readers
and a non-empty buffer, shift the head chunk out (subtracting its length
from the global count unless it is the `null` sentinel) and push it to the
stream; otherwise fall back to the provided `altChunk`; otherwise report
`false`. -/
def readOn (slot : Slot) (len : Int) (alt : Option (Option ByteChunk)) : ReadOnOut :=
  match slot.buffer with
  | c :: rest =>
      if slot.pendingReads ≠ 0 then
        { slot := { buffer := rest, pendingWrites := slot.pendingWrites - 1,
                    pendingReads := slot.pendingReads - 1 },
          length := match c with | some b => len - (b.length : Int) | none => len,
          success := true, usedAlt := false }
      else readOnAlt slot len alt
  | [] => readOnAlt slot len alt

/-- Outcome of one iteration of the `dispatchAllocs` while loop. -/
inductive DispRes where
  | crash
  | done (s : SC)
  | cont (s : SC) (index : Nat)
deriving Repr, DecidableEq

/-- One iteration of the `dispatchAllocs` loop at `index`:

* loop exit once `index` reaches the queue length;
* if the cache is full, try `#readOn` with the queued chunk as `altChunk`;
  on a bypass delivery the handler splices the entry out and invokes its
  callback; if nothing could be read, advance `index`;
* otherwise admit the chunk (splitting it at `availableCapacity` into an
  admitted head and an `overflow` tail), replace the entry by the tail
  (`reallocate = false`) or remove it and append the degenerate
  `{...props, chunk: overflow}` object (`reallocate = true`), invoke the
  callback only when nothing overflowed (incrementing `pendingWrites`
  otherwise), and satisfy one pending reader if any. -/
def dispatchIter (s : SC) (index : Nat) : DispRes :=
  if h : index < s.allocBuffer.length then
    let e := s.allocBuffer[index]
    match e.slotId with
    | none => DispRes.crash
    | some sid =>
      match s.slots[sid]? with
      | none => DispRes.crash
      | some stack =>
        if s.maxCapacity - s.length ≤ 0 then
          let r := readOn stack s.length (some e.chunk)
          if r.success then
            if r.usedAlt then
              DispRes.cont
                { s with
                    slots := s.slots.set sid r.slot
                    length := r.length
                    allocBuffer := s.allocBuffer.eraseIdx index
                    calledCallbacks := s.calledCallbacks ++ e.callbackId.toList } index
            else
              DispRes.cont { s with slots := s.slots.set sid r.slot, length := r.length } index
          else DispRes.cont s (index + 1)
        else
          let avail := s.maxCapacity - s.length
          let split :
              Option ByteChunk × Option ByteChunk :=
            match e.chunk with
            | some b =>
                if (b.length : Int) > avail then (some (b.take avail.toNat), some (b.drop avail.toNat))
                else (some b, none)
            | none => (none, none)
          let head := split.1
          let overflow := split.2
          let len1 := match head with | some b => s.length + (b.length : Int) | none => s.length
          let stack1 := { stack with buffer := stack.buffer ++ [head] }
          let q1 :=
            if overflow.isSome ∧ ¬ s.reallocate then
              s.allocBuffer.set index { e with chunk := overflow }
            else s.allocBuffer.eraseIdx index
          let q2 :=
            if overflow.isSome ∧ s.reallocate then
              q1 ++ [{ slotId := none, chunk := overflow, callbackId := none }]
            else q1
          let called :=
            if overflow.isSome then s.calledCallbacks
            else s.calledCallbacks ++ e.callbackId.toList
          let stack2 :=
            if overflow.isSome then { stack1 with pendingWrites := stack1.pendingWrites + 1 }
            else stack1
          let s1 : SC :=
            { s with
                slots := s.slots.set sid stack2
                length := len1
                allocBuffer := q2
                calledCallbacks := called }
          let s2 :=
            if stack2.pendingReads ≠ 0 then
              let r := readOn stack2 len1 none
              if r.success then { s1 with slots := s1.slots.set sid r.slot, length := r.length }
              else s1
            else s1
          DispRes.cont s2 index
  else DispRes.done s

/-- `dispatchAllocs()` as a fuel-bounded run of `dispatchIter` from a given
index; `none` models a thrown `TypeError` or fuel exhaustion. -/
def dispatchAllocs (s : SC) (index : Nat) : Nat → Option SC
  | 0 => none
  | fuel + 1 =>
    match dispatchIter s index with
    | DispRes.crash => none
    | DispRes.done s1 => some s1
    | DispRes.cont s1 i1 => dispatchAllocs s1 i1 fuel

/-- `#allocOn` (reached through `cacheBytesOn` from `_write`/`_final`): with
prior pending writes or no pending readers, enqueue the chunk on the admit
queue and run the dispatcher; otherwise bypass the cache, pushing the chunk
straight to the stream and completing immediately. -/
def allocOn (s : SC) (sid : Nat) (chunk : Option ByteChunk) (cbId : Nat) (fuel : Nat) :
    Option SC :=
  match s.slots[sid]? with
  | none => none
  | some stack =>
    if stack.pendingWrites ≠ 0 ∨ stack.pendingReads = 0 then
      let s1 : SC :=
        { s with
            slots := s.slots.set sid { stack with pendingWrites := stack.pendingWrites + 1 }
            allocBuffer :=
              s.allocBuffer ++ [{ slotId := some sid, chunk := chunk, callbackId := some cbId }] }
      dispatchAllocs s1 0 fuel
    else
      some
        { s with
            slots := s.slots.set sid { stack with pendingReads := stack.pendingReads - 1 }
            calledCallbacks := s.calledCallbacks ++ [cbId] }

/-- `readBytesOn(stream)` (from `_read`): count the new pending read, try
`#readOn`, and run the dispatcher if nothing could be read. -/
def readBytesOn (s : SC) (sid : Nat) (fuel : Nat) : Option SC :=
  match s.slots[sid]? with
  | none => none
  | some stack =>
    let stack1 := { stack with pendingReads := stack.pendingReads + 1 }
    let r := readOn stack1 s.length none
    let s1 : SC := { s with slots := s.slots.set sid r.slot, length := r.length }
    if r.success then some s1 else dispatchAllocs s1 0 fuel

/-- One completed operation on a `StreamCache` at a stable point: creating
a child stream, a completed admit (`cacheBytesOn`), a standalone completed
dispatcher run, or a completed read (`readBytesOn`).  Capacity changes are
deliberately not steps. -/
inductive SCStep : SC → SC → Prop where
  | newSlot (s : SC) : SCStep s s.newStream
  | enqueue (s : SC) (sid : Nat) (chunk : Option ByteChunk) (cbId : Nat) (fuel : Nat) (s1 : SC) :
      allocOn s sid chunk cbId fuel = some s1 → SCStep s s1
  | dispatch (s : SC) (fuel : Nat) (s1 : SC) :
      dispatchAllocs s 0 fuel = some s1 → SCStep s s1
  | read (s : SC) (sid : Nat) (fuel : Nat) (s1 : SC) :
      readBytesOn s sid fuel = some s1 → SCStep s s1

/-- States reachable from a freshly constructed cache of capacity `cap`
by completed admit/dispatch/read steps and stream creation, with no
capacity change in between. -/
def SCReached (cap : Int) (realloc : Bool) (s : SC) : Prop :=
  Relation.ReflTransGen SCStep (mkStreamCache (some cap) realloc) s


/-- The `totalSize` field after `xHeadUpdate` (assigned only when no finite
`size` was preset). -/
def probeTotalSize (store : HeadStore) (g : GetData) : Option XNum :=
  if ¬ optIsFinite store.size then some (xTotalSizeLearned g) else store.totalSize

/-- The `chunkable` flag after `xHeadUpdate`. -/
def probeChunkable (store : HeadStore) (g : GetData) : Bool :=
  xAcceptsRanges g && optIsFinite (probeTotalSize store g)

/-- The `start` offset after `xHeadUpdate`. -/
def probeStart (store : HeadStore) (offset : Option Int) (g : GetData) : Int :=
  if ¬ xAcceptsRanges g then 0 else offset.getD store.start

/-- The `size` field after `xHeadUpdate`. -/
def probeSize (store : HeadStore) (offset : Option Int) (g : GetData) : Option XNum :=
  if ¬ optIsFinite store.size then
    some (xsub (optGetNum (probeTotalSize store g)) (XNum.fin (probeStart store offset g)))
  else store.size

/-- The chunk count after `xHeadUpdate`. -/
def probeChunks (store : HeadStore) (offset : Option Int) (g : GetData) : Int :=
  let cfg1 := if probeChunkable store g then store.chunks else 1
  if xltb (optGetNum (probeSize store offset g)) (XNum.fin cfg1) then
    (if xltb (optGetNum (probeSize store offset g)) (XNum.fin 5) then 1 else 5)
  else cfg1

/-- Modelled from the spec: the claim C6 segment-count rule "if the gate
fails, 1 segment; otherwise if size < configured chunks then 1 when
size < 5 and 5 otherwise; otherwise the configured chunk count".  The
claim instantiates the gate with raw server range support; the amended
claim instantiates it with the code's `chunkable` flag. -/
def specSegmentRule (gate : Bool) (size : XNum) (cfg : Int) : Int :=
  if ¬ gate then 1
  else if xltb size (XNum.fin cfg) then (if xltb size (XNum.fin 5) then 1 else 5)
  else cfg

/-- Modelled from the spec: "the server advertised byte-range support" as
realised on the successful probe path — a missing `content-length` header
with a present `content-range` counts as range support; otherwise the
`accept-ranges: bytes` header decides. -/
def specAdvertisesRanges (resp : HttpResponse) : Bool :=
  if resp.headers.contentLength = none ∧ (resp.headers.contentRange).isSome then true
  else resp.headers.acceptRanges

/-- Combined state update used to factor the dispatcher proofs: replace one
slot, the global length, the admit queue and the callback log at once. -/
def SC.withSlot (s : SC) (sid : Nat) (newSlot : Slot) (len2 : Int)
    (q2 : List AllocEntry) (cb2 : List Nat) (rb : Bool) : SC :=
  { slots := s.slots.set sid newSlot, length := len2, reallocate := rb,
    allocBuffer := q2, maxCapacity := s.maxCapacity, calledCallbacks := cb2 }

/-- Bytes stored in one slot's buffer (the `null` sentinel counts 0). -/
def bufferedBytes (slot : Slot) : Nat :=
  (slot.buffer.map (fun c => (c.getD []).length)).sum

/-- Total bytes stored across all slots of the cache. -/
def totalBuffered (s : SC) : Int :=
  ((s.slots.map (fun sl => ((bufferedBytes sl : Int)))).sum)

/-- Number of admit-queue entries addressed to slot `sid`. -/
def queueCountFor (s : SC) (sid : Nat) : Nat :=
  s.allocBuffer.countP (fun e => e.slotId == some sid)

/-- Bookkeeping invariant of one slot: `pendingWrites` counts buffered
chunks plus queued admissions, `pendingReads` is non-negative, and a slot
with outstanding readers has an empty buffer. -/
def SlotOk (s : SC) (sid : Nat) : Prop :=
  ∀ slot, s.slots[sid]? = some slot →
    slot.pendingWrites = (slot.buffer.length : Int) + (queueCountFor s sid : Int)
    ∧ 0 ≤ slot.pendingReads
    ∧ (slot.pendingReads ≠ 0 → slot.buffer = [])

/-- Every admit-queue entry addresses an existing slot. -/
def EntriesOk (s : SC) : Prop :=
  ∀ e ∈ s.allocBuffer, ∃ sid, e.slotId = some sid ∧ sid < s.slots.length

/-- A slot with queued admissions has no outstanding readers. -/
def QueueReadersOk (s : SC) : Prop :=
  ∀ e ∈ s.allocBuffer, ∀ sid, e.slotId = some sid →
    ∀ slot, s.slots[sid]? = some slot → slot.pendingReads = 0

/-- The stable-point invariant of a `StreamCache`. -/
def SCInv (s : SC) : Prop :=
  s.length = totalBuffered s ∧ s.length ≤ s.maxCapacity ∧ EntriesOk s ∧
  (∀ sid, SlotOk s sid) ∧ QueueReadersOk s

/-- Mid-dispatch invariant: the stable invariant minus `QueueReadersOk`,
which is only guaranteed for the already-visited queue prefix. -/
def DispInv (s : SC) (index : Nat) : Prop :=
  s.length = totalBuffered s ∧ s.length ≤ s.maxCapacity ∧ EntriesOk s ∧
  (∀ sid, SlotOk s sid) ∧
  (∀ e ∈ s.allocBuffer.take index, ∀ sid, e.slotId = some sid →
    ∀ slot, s.slots[sid]? = some slot → slot.pendingReads = 0)

/-- The unvisited queue suffix contains a degenerate entry (`undefined`
stream/stack, as built by the `reallocate` overflow branch). -/
def HasMalformed (s : SC) (index : Nat) : Prop :=
  ∃ e ∈ s.allocBuffer.drop index, e.slotId = none

/-- Partial sum of the first `i` chunk sizes. -/
def sTake (vs : List Int) (i : Nat) : Int := (vs.take i).sum

def overflowChunk15 : ByteChunk := [1, 2, 3, 4, 5, 6, 7, 8, 9, 10, 11, 12, 13, 14, 15]

/-- The reallocate-mode cache state right after `#allocOn` enqueues the
15-byte admit on a capacity-10 cache (before the dispatcher runs). -/
def reallocMidState : SC :=
  { slots := [{ buffer := [], pendingWrites := 1, pendingReads := 0 }], length := 0,
    reallocate := true,
    allocBuffer := [{ slotId := some 0, chunk := some overflowChunk15, callbackId := some 7 }],
    maxCapacity := 10, calledCallbacks := [] }

/-- The state after the dispatcher splits that admit: head admitted, and the
degenerate `{...props, chunk: overflow}` entry (undefined stream/stack/
callback) appended to the queue. -/
def reallocPostSplitState : SC :=
  { slots := [{ buffer := [some [1, 2, 3, 4, 5, 6, 7, 8, 9, 10]], pendingWrites := 2, pendingReads := 0 }],
    length := 10, reallocate := true,
    allocBuffer := [{ slotId := none, chunk := some [11, 12, 13, 14, 15], callbackId := none }],
    maxCapacity := 10, calledCallbacks := [] }

/-! ## Planner lemmas -/

@[simp] theorem xadd_fin (a b : Int) : xadd (XNum.fin a) (XNum.fin b) = XNum.fin (a + b) := rfl

@[simp] theorem xsub_fin (a b : Int) : xsub (XNum.fin a) (XNum.fin b) = XNum.fin (a - b) := rfl

@[simp] theorem xleb_fin (a b : Int) : xleb (XNum.fin a) (XNum.fin b) = decide (a ≤ b) := rfl

@[simp] theorem xltb_fin (a b : Int) : xltb (XNum.fin a) (XNum.fin b) = decide (a < b) := rfl

@[simp] theorem sTake_zero (vs : List Int) : sTake vs 0 = 0 := rfl

@[simp] theorem sTake_cons_succ (v : Int) (vs : List Int) (i : Nat) :
    sTake (v :: vs) (i + 1) = v + sTake vs i := by
  simp [sTake]

theorem buildChunksAux_length (vs : List XNum) (mn : XNum) :
    (buildChunksAux mn vs).length = vs.length := by
  induction vs generalizing mn with
  | nil => rfl
  | cons v rest ih => simp [buildChunksAux, ih]

theorem buildChunksAux_fin_get (vs : List Int) (s : Int) (i : Nat) (v : Int)
    (hv : vs[i]? = some v) :
    (buildChunksAux (XNum.fin s) (vs.map XNum.fin))[i]? =
      some { min := XNum.fin (s + sTake vs i), max := XNum.fin (s + sTake vs (i + 1) - 1),
             size := XNum.fin v } := by
  induction vs generalizing s i with
  | nil => simp at hv
  | cons w rest ih =>
    cases i with
    | zero =>
      rw [List.getElem?_cons_zero] at hv
      cases hv
      simp [buildChunksAux, sTake]
    | succ i =>
      rw [List.getElem?_cons_succ] at hv
      have hrec := ih (s + w) i hv
      simp only [List.map, buildChunksAux, xadd_fin, xsub_fin, List.getElem?_cons_succ]
      have harith : s + w - 1 + 1 = s + w := by ring
      rw [harith, hrec]
      simp [sTake_cons_succ, add_assoc]

theorem buildChunksAux_fin_mem (vs : List Int) (hvs : ∀ v ∈ vs, 0 ≤ v) (s b : Int) :
    (∃ c ∈ buildChunksAux (XNum.fin s) (vs.map XNum.fin),
        xleb c.min (XNum.fin b) = true ∧ xleb (XNum.fin b) c.max = true) ↔
      s ≤ b ∧ b < s + vs.sum := by
  induction vs generalizing s with
  | nil => simp [buildChunksAux]
  | cons v rest ih =>
    have hv : 0 ≤ v := hvs v (by simp)
    have hrest : ∀ w ∈ rest, 0 ≤ w := fun w hw => hvs w (by simp [hw])
    have hsum : 0 ≤ rest.sum := List.sum_nonneg hrest
    constructor
    · rintro ⟨c, hc, h1, h2⟩
      simp only [List.map, buildChunksAux, xadd_fin, xsub_fin, List.mem_cons] at hc
      rcases hc with hc | hc
      · subst hc
        simp only [xleb_fin, decide_eq_true_eq] at h1 h2
        simp only [List.sum_cons]
        omega
      · have harith : s + v - 1 + 1 = s + v := by ring
        rw [harith] at hc
        have := (ih hrest (s + v)).mp ⟨c, hc, h1, h2⟩
        simp only [List.sum_cons]
        omega
    · rintro ⟨hl, hr⟩
      simp only [List.sum_cons] at hr
      by_cases hb : b ≤ s + v - 1
      · refine ⟨{ min := XNum.fin s, max := XNum.fin (s + v - 1), size := XNum.fin v }, ?_, ?_, ?_⟩
        · simp [buildChunksAux]
        · simp [hl]
        · simp [hb]
      · have := (ih hrest (s + v)).mpr ⟨by omega, by omega⟩
        rcases this with ⟨c, hc, h1, h2⟩
        refine ⟨c, ?_, h1, h2⟩
        have harith : s + v - 1 + 1 = s + v := by ring
        simp only [List.map, buildChunksAux, xadd_fin, xsub_fin, List.mem_cons, harith]
        exact Or.inr hc

theorem sum_take_le_sum (l : List Int) (h : ∀ v ∈ l, 0 ≤ v) (i : Nat) :
    (l.take i).sum ≤ l.sum := by
  conv_rhs => rw [← List.take_append_drop i l]
  rw [List.sum_append]
  have : 0 ≤ (l.drop i).sum :=
    List.sum_nonneg fun v hv => h v (List.drop_subset i l hv)
  omega

theorem sTake_mono (vs : List Int) (h : ∀ v ∈ vs, 0 ≤ v) {i j : Nat} (hij : i ≤ j) :
    sTake vs i ≤ sTake vs j := by
  unfold sTake
  have h1 : vs.take i = (vs.take j).take i := by
    rw [List.take_take, min_eq_left hij]
  rw [h1]
  exact sum_take_le_sum (vs.take j) (fun v hv => h v (List.take_subset j vs hv)) i

theorem buildChunksAux_getElem_lt_length (vs : List XNum) (mn : XNum) (i : Nat)
    (c : XChunk) (hc : (buildChunksAux mn vs)[i]? = some c) : i < vs.length := by
  have := List.getElem?_eq_some.mp hc
  have hlen := this.1
  rwa [buildChunksAux_length] at hlen

theorem chunkSizeList_fin (total N : Nat) (hN : 1 ≤ N) :
    chunkSizeList (parseSplitSpec (XNum.fin total) N) =
      (List.replicate (N - 1) ((total / N : Nat) : Int) ++
        [(total : Int) - ((total / N : Nat) : Int) * ((N : Int) - 1)]).map XNum.fin := by
  have hN0 : ((N : Int)) ≠ 0 := by
    have : N ≠ 0 := by omega
    exact_mod_cast this
  have hq : Int.fdiv (total : Int) (N : Int) = ((total / N : Nat) : Int) := by
    rw [Int.fdiv_eq_ediv _ (by positivity)]
    exact (Int.ofNat_ediv total N).symm
  have htoNat : (((N : Int)) - 1).toNat = N - 1 := by omega
  unfold chunkSizeList parseSplitSpec xfloorDiv
  simp only [if_neg hN0, hq, htoNat, List.map_append, List.map_replicate, List.map_cons,
    List.map_nil]
  by_cases h1 : ((N : Int)) = 1
  · have hN1 : N = 1 := by exact_mod_cast h1
    subst hN1
    simp [xsub, xmulInt, Nat.div_one]
  · simp [h1, xsub, xmulInt]

/-- C1: for every finite total size, start offset, and chunk count `N ≥ 1`
produced by the planner, the built plan is a list of `N` ranges with
`plan[0].min = start`, `plan[i].min = plan[i-1].max + 1`, each of the first
`N - 1` ranges of size `⌊total / N⌋`, the last range absorbing the
remainder, and the ranges covering `[start, start + total - 1]` without
gaps or overlaps. -/
theorem c1_plan_partition (total N : Nat) (start : Int) (hN : 1 ≤ N)
    (plan : List XChunk)
    (hplan : plan = buildChunks (parseSplitSpec (XNum.fin total) N) start) :
    plan.length = N
    ∧ (∀ c, plan[0]? = some c → c.min = XNum.fin start)
    ∧ (∀ (i : Nat) (ci cn : XChunk), plan[i]? = some ci → plan[i + 1]? = some cn →
        cn.min = xadd ci.max (XNum.fin 1))
    ∧ (∀ (i : Nat) (c : XChunk), plan[i]? = some c → i + 1 < N →
        c.size = XNum.fin ((total / N : Nat) : Int))
    ∧ (∀ c, plan[N - 1]? = some c →
        c.size = XNum.fin ((total : Int) - ((total / N : Nat) : Int) * ((N : Int) - 1)))
    ∧ (∀ b : Int, (start ≤ b ∧ b < start + (total : Int)) ↔
        ∃ c ∈ plan, xleb c.min (XNum.fin b) = true ∧ xleb (XNum.fin b) c.max = true)
    ∧ (∀ (b : Int) (i j : Nat) (ci cj : XChunk), i < j →
        plan[i]? = some ci → plan[j]? = some cj →
        xleb ci.min (XNum.fin b) = true → xleb (XNum.fin b) ci.max = true →
        ¬ (xleb cj.min (XNum.fin b) = true ∧ xleb (XNum.fin b) cj.max = true)) := by
  have hq0 : (0 : Int) ≤ ((total / N : Nat) : Int) := by positivity
  have hqle : ((total / N : Nat) : Int) * ((N : Int) - 1) ≤ (total : Int) := by
    have h1 : (total / N) * N ≤ total := Nat.div_mul_le_self total N
    have h2 : ((total / N : Nat) : Int) * (N : Int) ≤ (total : Int) := by exact_mod_cast h1
    nlinarith [hq0]
  set q : Int := ((total / N : Nat) : Int) with hqdef
  set lastv : Int := (total : Int) - q * ((N : Int) - 1) with hlastdef
  set vs : List Int := List.replicate (N - 1) q ++ [lastv] with hvsdef
  have hvs_plan : plan = buildChunksAux (XNum.fin start) (vs.map XNum.fin) := by
    rw [hplan]
    unfold buildChunks
    rw [chunkSizeList_fin total N hN]
  have hlen_vs : vs.length = N := by
    simp [hvsdef]
    omega
  have hnonneg : ∀ v ∈ vs, 0 ≤ v := by
    intro v hv
    rw [hvsdef] at hv
    rcases List.mem_append.mp hv with h | h
    · rw [List.eq_of_mem_replicate h]
      exact hq0
    · simp at h
      subst h
      rw [hlastdef]
      omega
  have hcast : ((N - 1 : Nat) : Int) = (N : Int) - 1 := by omega
  have hsum : vs.sum = (total : Int) := by
    rw [hvsdef, List.sum_append, List.sum_replicate]
    simp only [List.sum_cons, List.sum_nil, nsmul_eq_mul, add_zero, hcast]
    rw [hlastdef]
    ring
  have hget_body : ∀ i, i < N - 1 → vs[i]? = some q := by
    intro i hi
    rw [hvsdef]
    rw [List.getElem?_append_left (by simpa using hi)]
    simp [List.getElem?_replicate, hi]
  have hget_last : vs[N - 1]? = some lastv := by
    rw [hvsdef]
    rw [List.getElem?_append_right (by simp)]
    simp
  have hget_any : ∀ i, i < N → ∃ v, vs[i]? = some v := by
    intro i hi
    rcases Nat.lt_or_ge i (N - 1) with h | h
    · exact ⟨q, hget_body i h⟩
    · have : i = N - 1 := by omega
      subst this
      exact ⟨lastv, hget_last⟩
  have hlen : plan.length = N := by
    rw [hvs_plan, buildChunksAux_length]
    simpa using hlen_vs
  have hbound : ∀ (k : Nat) (c : XChunk), plan[k]? = some c → k < N := by
    intro k c hc
    rw [hvs_plan] at hc
    have := buildChunksAux_getElem_lt_length _ _ _ _ hc
    simpa [hlen_vs] using this
  refine ⟨hlen, ?_, ?_, ?_, ?_, ?_, ?_⟩
  · intro c hc
    rw [hvs_plan] at hc
    obtain ⟨v0, hv0⟩ := hget_any 0 (by omega)
    rw [buildChunksAux_fin_get vs start 0 v0 hv0] at hc
    cases hc
    simp
  · intro i ci cn hci hcn
    have hiN : i + 1 < N := hbound _ _ hcn
    obtain ⟨vi, hvi⟩ := hget_any i (by omega)
    obtain ⟨vn, hvn⟩ := hget_any (i + 1) (by omega)
    rw [hvs_plan] at hci hcn
    rw [buildChunksAux_fin_get vs start i vi hvi] at hci
    rw [buildChunksAux_fin_get vs start (i + 1) vn hvn] at hcn
    cases hci
    cases hcn
    simp only [xadd_fin]
    congr 1
    ring
  · intro i c hc hiN
    obtain ⟨vi, hvi⟩ := hget_any i (by omega)
    have hvq : vi = q := by
      have hb := hget_body i (by omega)
      rw [hb] at hvi
      cases hvi
      rfl
    rw [hvs_plan] at hc
    rw [buildChunksAux_fin_get vs start i vi hvi] at hc
    cases hc
    simp [hvq]
  · intro c hc
    rw [hvs_plan] at hc
    rw [buildChunksAux_fin_get vs start (N - 1) lastv hget_last] at hc
    cases hc
    rfl
  · intro b
    rw [hvs_plan, ← hsum]
    exact (buildChunksAux_fin_mem vs hnonneg start b).symm
  · intro b i j ci cj hij hci hcj h1 h2
    have hjN : j < N := hbound _ _ hcj
    obtain ⟨vi, hvi⟩ := hget_any i (by omega)
    obtain ⟨vj, hvj⟩ := hget_any j (by omega)
    rw [hvs_plan] at hci hcj
    rw [buildChunksAux_fin_get vs start i vi hvi] at hci
    rw [buildChunksAux_fin_get vs start j vj hvj] at hcj
    cases hci
    cases hcj
    rintro ⟨h3, h4⟩
    simp only [xleb_fin, decide_eq_true_eq] at h1 h2 h3 h4
    have hmono := sTake_mono vs hnonneg (show i + 1 ≤ j by omega)
    omega

/-- Witness for C1: the 3-way split of 7 bytes from offset 100; byte 103 is
covered by the plan. -/
theorem c1_plan_partition_witness :
    (buildChunks (parseSplitSpec (XNum.fin 7) 3) 100).length = 3 ∧
    ∃ c ∈ buildChunks (parseSplitSpec (XNum.fin 7) 3) 100,
      xleb c.min (XNum.fin 103) = true ∧ xleb (XNum.fin 103) c.max = true :=
  ⟨(c1_plan_partition 7 3 100 (by decide) _ rfl).1,
   ((c1_plan_partition 7 3 100 (by decide) _ rfl).2.2.2.2.2.1 103).mp (by decide)⟩

theorem sTake_planner (N : Nat) (q lastv : Int) (i : Nat) (hi : i ≤ N - 1) :
    sTake (List.replicate (N - 1) q ++ [lastv]) i = q * i := by
  unfold sTake
  rw [List.take_append_of_le_length (by simpa using hi), List.take_replicate,
    min_eq_left hi, List.sum_replicate]
  simp only [nsmul_eq_mul]
  ring

theorem sTake_full (vs : List Int) (i : Nat) (hi : vs.length ≤ i) : sTake vs i = vs.sum := by
  unfold sTake
  rw [List.take_of_length_le hi]

theorem plannerList_sum (total N : Nat) (hN : 1 ≤ N) :
    (List.replicate (N - 1) ((total / N : Nat) : Int) ++
      [(total : Int) - ((total / N : Nat) : Int) * ((N : Int) - 1)]).sum = (total : Int) := by
  have hcast : ((N - 1 : Nat) : Int) = (N : Int) - 1 := by omega
  rw [List.sum_append, List.sum_replicate]
  simp only [List.sum_cons, List.sum_nil, nsmul_eq_mul, add_zero, hcast]
  ring

theorem plan_min_max_aux (vs : List Int) (s : Int) (i : Nat) (c : XChunk)
    (hc : (buildChunksAux (XNum.fin s) (vs.map XNum.fin))[i]? = some c) :
    i < vs.length ∧ c.min = XNum.fin (s + sTake vs i) ∧
      c.max = XNum.fin (s + sTake vs (i + 1) - 1) := by
  have hi : i < vs.length := by
    have := buildChunksAux_getElem_lt_length _ _ _ _ hc
    simpa using this
  have hv : vs[i]? = some vs[i] := List.getElem?_eq_getElem hi
  rw [buildChunksAux_fin_get vs s i vs[i] hv] at hc
  cases hc
  exact ⟨hi, rfl, rfl⟩

theorem plan_min_max (total N : Nat) (start : Int) (hN : 1 ≤ N) (i : Nat) (c : XChunk)
    (hc : (buildChunks (parseSplitSpec (XNum.fin total) N) start)[i]? = some c) :
    i < N ∧
    c.min = XNum.fin (start + ((total / N : Nat) : Int) * i) ∧
    c.max = XNum.fin (start + (if i + 1 = N then (total : Int)
      else ((total / N : Nat) : Int) * (i + 1)) - 1) := by
  rw [buildChunks, chunkSizeList_fin total N hN] at hc
  obtain ⟨hi, hmin, hmax⟩ := plan_min_max_aux _ start i c hc
  have hlen : (List.replicate (N - 1) ((total / N : Nat) : Int) ++
      [(total : Int) - ((total / N : Nat) : Int) * ((N : Int) - 1)]).length = N := by
    simp
    omega
  have hiN : i < N := by rwa [hlen] at hi
  refine ⟨hiN, ?_, ?_⟩
  · rw [hmin, sTake_planner N _ _ i (by omega)]
  · by_cases hlast : i + 1 = N
    · rw [hmax, sTake_full _ (i + 1) (by omega), plannerList_sum total N hN]
      simp [hlast]
    · rw [hmax, sTake_planner N _ _ (i + 1) (by omega)]
      simp [hlast]

/-- C7: the `Range` header reissued for segment `i` after `bytesRead`
delivered bytes is `bytes=(min + bytesRead)-max`, where for a finite total
`min = start + ⌊total/N⌋·i` and `max` is the segment's upper bound; for the
unknown-size single-chunk plan the upper bound is omitted (the segment's
`max` is infinite). -/
theorem c7_retry_range_header :
    (∀ (total N : Nat) (start bytesRead : Int) (i : Nat) (c : XChunk), 1 ≤ N →
      (buildChunks (parseSplitSpec (XNum.fin total) N) start)[i]? = some c →
      chunkRangeHeader c bytesRead =
        "bytes=" ++ toString (start + ((total / N : Nat) : Int) * i + bytesRead) ++ "-" ++
          toString (start + (if i + 1 = N then (total : Int)
            else ((total / N : Nat) : Int) * (i + 1)) - 1)) ∧
    (∀ (start bytesRead : Int) (c : XChunk),
      (buildChunks (parseSplitSpec XNum.inf 1) start)[0]? = some c →
      chunkRangeHeader c bytesRead = "bytes=" ++ toString (start + bytesRead) ++ "-") := by
  constructor
  · intro total N start bytesRead i c hN hc
    obtain ⟨hiN, hmin, hmax⟩ := plan_min_max total N start hN i c hc
    rw [chunkRangeHeader, hmin, hmax]
    simp [xIsFinite, xToString]
  · intro start bytesRead c hc
    have hplan : buildChunks (parseSplitSpec XNum.inf 1) start =
        [{ min := XNum.fin start, max := XNum.inf, size := XNum.inf }] := rfl
    rw [hplan] at hc
    rw [List.getElem?_cons_zero] at hc
    cases hc
    rw [chunkRangeHeader]
    simp [xIsFinite, xToString, xadd]

/-- Witness for C7: segment 1 of `buildChunks(parseSplitSpec(10, 2), 0)`
resumed after 4 bytes, and the single unknown-size segment from offset 7
resumed after 3 bytes. -/
theorem c7_retry_range_header_witness :
    chunkRangeHeader { min := XNum.fin 5, max := XNum.fin 9, size := XNum.fin 5 } 4 =
      "bytes=" ++ toString ((0 : Int) + ((10 / 2 : Nat) : Int) * 1 + 4) ++ "-" ++
        toString ((0 : Int) + (if 1 + 1 = 2 then ((10 : Nat) : Int)
          else ((10 / 2 : Nat) : Int) * (1 + 1)) - 1) ∧
    chunkRangeHeader { min := XNum.fin 7, max := XNum.inf, size := XNum.inf } 3 =
      "bytes=" ++ toString ((7 : Int) + 3) ++ "-" :=
  ⟨c7_retry_range_header.1 10 2 0 4 1 _ (by decide) (by decide),
   c7_retry_range_header.2 7 3 _ (by decide)⟩

/-! ## Probe lemmas -/

theorem firstDigitAux_2xx (f s : Nat) (h2 : 200 ≤ s) (h3 : s < 300) :
    firstDigitAux (f + 3) s = 2 := by
  show (if s < 10 then s else firstDigitAux (f + 2) (s / 10)) = 2
  rw [if_neg (by omega)]
  show (if s / 10 < 10 then s / 10 else firstDigitAux (f + 1) (s / 10 / 10)) = 2
  rw [if_neg (by omega)]
  show (if s / 10 / 10 < 10 then s / 10 / 10 else firstDigitAux f (s / 10 / 10 / 10)) = 2
  rw [if_pos (by omega)]
  omega

theorem firstDigit_2xx (s : Nat) (h2 : 200 ≤ s) (h3 : s < 300) : firstDigit s = 2 := by
  unfold firstDigit
  have hs : s = (s - 3) + 3 := by omega
  rw [hs]
  exact firstDigitAux_2xx (s - 3) ((s - 3) + 3) (by omega) (by omega)

theorem checkIsValidStatusCode_2xx (s : Nat) (h2 : 200 ≤ s) (h3 : s < 300) :
    checkIsValidStatusCode s = true := by
  unfold checkIsValidStatusCode
  rw [firstDigit_2xx s h2 h3]
  simp
  omega

theorem respToGetData_status (resp : HttpResponse) : (respToGetData resp).status = resp.status := by
  unfold respToGetData
  cases hcl : resp.headers.contentLength <;> cases hcr : resp.headers.contentRange <;>
    simp [clTruthy]

theorem getContentLoop_ok (retries rc : Nat) (resp : HttpResponse)
    (h2 : 200 ≤ resp.status) (h3 : resp.status < 300) (rest : List (Option HttpResponse)) :
    getContentLoop retries rc (some resp :: rest) = ([], Except.ok resp) := by
  simp only [getContentLoop]
  rw [if_pos ⟨h2, h3⟩]

theorem getContentLoop_retry_step (retries rc : Nat) (resp : HttpResponse)
    (hfail : ¬ (200 ≤ resp.status ∧ resp.status < 300)) (hretry : rc < retries)
    (h403 : resp.status ≠ 403) (rest : List (Option HttpResponse)) :
    getContentLoop retries rc (some resp :: rest) =
      ({ meta := true, retryCount := rc + 1, maxRetries := retries,
         lastErrStatus := some resp.status } :: (getContentLoop retries (rc + 1) rest).1,
       (getContentLoop retries (rc + 1) rest).2) := by
  simp only [getContentLoop]
  rw [if_neg hfail, if_pos ⟨hretry, h403⟩]

theorem getContentLoop_persistent (resp : HttpResponse)
    (hfail : ¬ (200 ≤ resp.status ∧ resp.status < 300)) (h403 : resp.status ≠ 403)
    (retries : Nat) :
    ∀ (k rc : Nat), rc + k = retries →
      getContentLoop retries rc (List.replicate (k + 1) (some resp)) =
        ((List.range k).map (fun t =>
          { meta := true, retryCount := rc + t + 1, maxRetries := retries,
            lastErrStatus := some resp.status }),
         Except.error (ProbeErr.http resp.status)) := by
  intro k
  induction k with
  | zero =>
    intro rc hrc
    rw [List.replicate_succ, List.replicate_zero]
    simp only [getContentLoop]
    rw [if_neg hfail, if_neg (by omega)]
    simp
  | succ k ih =>
    intro rc hrc
    rw [List.replicate_succ,
      getContentLoop_retry_step retries rc resp hfail (by omega) h403 _,
      ih (rc + 1) (by omega)]
    simp only [List.range_succ_eq_map, List.map_cons, List.map_map, Prod.mk.injEq,
      List.cons.injEq]
    refine ⟨⟨by simp, ?_⟩, trivial⟩
    apply List.map_congr_left
    intro t _
    simp only [Function.comp]
    congr 1
    omega

theorem getContentLoop_403 (retries rc : Nat) (resp : HttpResponse)
    (h403 : resp.status = 403) (rest : List (Option HttpResponse)) :
    getContentLoop retries rc (some resp :: rest) = ([], Except.error (ProbeErr.http resp.status)) := by
  simp only [getContentLoop]
  rw [if_neg (by omega), if_neg (by simp [h403])]

theorem buildChunks_length (spec : SplitSpec) (start : Int) :
    (buildChunks spec start).length = (spec.numberOfparts - 1).toNat + 1 := by
  unfold buildChunks chunkSizeList
  rw [buildChunksAux_length]
  simp

/-! ## Probe characterization -/

theorem xHeadUpdate_eq (store : HeadStore) (offset : Option Int) (g : GetData) :
    xHeadUpdate store offset g =
      { size := probeSize store offset g, start := probeStart store offset g,
        chunks := probeChunks store offset g, retries := store.retries,
        chunkable := probeChunkable store g, totalSize := probeTotalSize store g,
        chunkStack :=
          buildChunks (parseSplitSpec (optGetNum (probeSize store offset g))
            (probeChunks store offset g)) (probeStart store offset g),
        loaded := store.loaded, ended := store.ended } := by
  unfold xHeadUpdate probeChunks probeSize probeStart probeChunkable probeTotalSize
  by_cases hA : optIsFinite store.size = true <;>
    by_cases hB : xAcceptsRanges g = true <;>
      simp [hA, hB, apply_ite HeadStore.size, apply_ite HeadStore.start,
        apply_ite HeadStore.chunks, apply_ite HeadStore.chunkable,
        apply_ite HeadStore.totalSize, apply_ite HeadStore.chunkStack,
        apply_ite HeadStore.retries, apply_ite HeadStore.loaded, apply_ite HeadStore.ended]

theorem xHeadDataModel_single_ok (store : HeadStore) (offset : Option Int)
    (resp : HttpResponse) (h2 : 200 ≤ resp.status) (h3 : resp.status < 300) :
    xHeadDataModel store offset [some resp] =
      ([], xHeadUpdate store offset (respToGetData resp),
       Except.ok
         { size := optGetNum (xHeadUpdate store offset (respToGetData resp)).size,
           start := (xHeadUpdate store offset (respToGetData resp)).start,
           chunkable := (xHeadUpdate store offset (respToGetData resp)).chunkable,
           totalSize := (xHeadUpdate store offset (respToGetData resp)).totalSize,
           chunkStack := (xHeadUpdate store offset (respToGetData resp)).chunkStack }) := by
  simp [xHeadDataModel, getContentStructModel, getContentLoop_ok store.retries 0 resp h2 h3,
    Except.map, respToGetData_status, checkIsValidStatusCode_2xx resp.status h2 h3]

theorem xHeadDataModel_err (store : HeadStore) (offset : Option Int)
    (attempts : List (Option HttpResponse)) (e : ProbeErr)
    (h : (getContentLoop store.retries 0 attempts).2 = Except.error e) :
    xHeadDataModel store offset attempts =
      ((getContentLoop store.retries 0 attempts).1, store, Except.error e) := by
  simp [xHeadDataModel, getContentStructModel, h, Except.map]

theorem xltb_one_imp_five (x : XNum) (h : xltb x (XNum.fin 1) = true) :
    xltb x (XNum.fin 5) = true := by
  cases x <;> simp_all [xltb] <;> omega

theorem xAcceptsRanges_respToGetData (resp : HttpResponse) (h416 : resp.status ≠ 416) :
    xAcceptsRanges (respToGetData resp) = specAdvertisesRanges resp := by
  unfold xAcceptsRanges respToGetData specAdvertisesRanges
  cases hcl : resp.headers.contentLength <;> cases hcr : resp.headers.contentRange <;>
    simp [clTruthy, h416]

/-- C10: when the caller supplies a finite numeric `opts.size`, the probe
never assigns `totalSize` (it stays `null`), hence `chunkable` is false and
exactly one segment is built, regardless of the server's range support. -/
theorem c10_preset_size (q start0 cfg : Int) (retries : Nat) (offset : Option Int)
    (resp : HttpResponse) (h2 : 200 ≤ resp.status) (h3 : resp.status < 300) :
    (xHeadDataModel (mkStore (some (XNum.fin q)) start0 cfg retries) offset
        [some resp]).2.1.totalSize = none ∧
    (xHeadDataModel (mkStore (some (XNum.fin q)) start0 cfg retries) offset
        [some resp]).2.1.chunkable = false ∧
    (xHeadDataModel (mkStore (some (XNum.fin q)) start0 cfg retries) offset
        [some resp]).2.1.chunks = 1 ∧
    (xHeadDataModel (mkStore (some (XNum.fin q)) start0 cfg retries) offset
        [some resp]).2.1.chunkStack.length = 1 := by
  rw [xHeadDataModel_single_ok _ offset resp h2 h3, xHeadUpdate_eq]
  have hts : probeTotalSize (mkStore (some (XNum.fin q)) start0 cfg retries)
      (respToGetData resp) = none := by
    simp [probeTotalSize, mkStore, optIsFinite, xIsFinite]
  have hchunkable : probeChunkable (mkStore (some (XNum.fin q)) start0 cfg retries)
      (respToGetData resp) = false := by
    simp [probeChunkable, hts, optIsFinite]
  have hchunks : probeChunks (mkStore (some (XNum.fin q)) start0 cfg retries) offset
      (respToGetData resp) = 1 := by
    simp only [probeChunks, hchunkable, Bool.false_eq_true, if_false]
    have hsz : probeSize (mkStore (some (XNum.fin q)) start0 cfg retries) offset
        (respToGetData resp) = some (XNum.fin q) := by
      simp [probeSize, mkStore, optIsFinite, xIsFinite]
    rw [hsz]
    simp only [optGetNum, xltb_fin, decide_eq_true_eq]
    split_ifs with hq1 hq5
    · rfl
    · omega
    · rfl
  refine ⟨hts, hchunkable, hchunks, ?_⟩
  simp only [buildChunks_length, parseSplitSpec, hchunks]
  rfl

/-- Witness for C10: a caller-supplied `size` of 500 bytes against a
range-supporting server that reports 1000 bytes. -/
theorem c10_preset_size_witness :
    (xHeadDataModel (mkStore (some (XNum.fin 500)) 0 5 5) none
        [some { status := 200, headers :=
          { contentLength := some 1000, contentRange := none, acceptRanges := true } }]).2.1.totalSize = none ∧
    (xHeadDataModel (mkStore (some (XNum.fin 500)) 0 5 5) none
        [some { status := 200, headers :=
          { contentLength := some 1000, contentRange := none, acceptRanges := true } }]).2.1.chunkable = false ∧
    (xHeadDataModel (mkStore (some (XNum.fin 500)) 0 5 5) none
        [some { status := 200, headers :=
          { contentLength := some 1000, contentRange := none, acceptRanges := true } }]).2.1.chunks = 1 ∧
    (xHeadDataModel (mkStore (some (XNum.fin 500)) 0 5 5) none
        [some { status := 200, headers :=
          { contentLength := some 1000, contentRange := none, acceptRanges := true } }]).2.1.chunkStack.length = 1 :=
  c10_preset_size 500 0 5 5 none _ (by decide) (by decide)

/-- Counterexample for C6 as stated: with range support advertised but an
unknown total size (no `content-length`, no `content-range`), the code
collapses to 1 segment while the claim's rule ("if the server does not
support ranges use 1; otherwise if size < chunks … otherwise the
configured count") prescribes the configured count 3 — the code gates on
`chunkable`, not on raw range support. -/
theorem c6_counterexample :
    (xHeadDataModel (mkStore none 0 3 5) none
        [some { status := 200, headers :=
          { contentLength := none, contentRange := none, acceptRanges := true } }]).2.1.chunks = 1 ∧
    (xHeadDataModel (mkStore none 0 3 5) none
        [some { status := 200, headers :=
          { contentLength := none, contentRange := none, acceptRanges := true } }]).2.1.size = some XNum.inf ∧
    xAcceptsRanges (respToGetData { status := 200, headers :=
      { contentLength := none, contentRange := none, acceptRanges := true } }) = true ∧
    specSegmentRule true XNum.inf 3 = 3 ∧
    (1 : Int) ≠ 3 := by
  refine ⟨?_, ?_, by decide, by decide, by decide⟩ <;> decide

/-- C6 (amended): the number of segments equals the rule "1 when the
transfer is not chunkable (no range support, or no finite total size —
including a caller-preset `size` —), else 1 when size < 5 if
size < configured chunks, else 5 if size < configured chunks, else the
configured count", i.e. the gate is `chunkable`, not raw range support. -/
theorem c6_chunk_count_amended (store : HeadStore) (offset : Option Int)
    (resp : HttpResponse) (h2 : 200 ≤ resp.status) (h3 : resp.status < 300) :
    (xHeadDataModel store offset [some resp]).2.1.chunks =
      specSegmentRule (xHeadDataModel store offset [some resp]).2.1.chunkable
        (optGetNum (xHeadDataModel store offset [some resp]).2.1.size) store.chunks := by
  rw [xHeadDataModel_single_ok store offset resp h2 h3, xHeadUpdate_eq]
  simp only []
  unfold probeChunks specSegmentRule
  by_cases hc : probeChunkable store (respToGetData resp) = true
  · simp [hc]
  · simp only [Bool.not_eq_true] at hc
    simp only [hc, Bool.false_eq_true, if_false, not_false_eq_true, if_true]
    split_ifs with hlt1 hlt5
    · rfl
    · exact absurd (xltb_one_imp_five _ hlt1) hlt5
    · rfl

/-- Witness for the amended C6: a 100-byte chunkable resource with 4
configured chunks. -/
theorem c6_chunk_count_amended_witness :
    (xHeadDataModel (mkStore none 0 4 5) none
        [some { status := 200, headers :=
          { contentLength := some 100, contentRange := none, acceptRanges := true } }]).2.1.chunks =
      specSegmentRule
        (xHeadDataModel (mkStore none 0 4 5) none
          [some { status := 200, headers :=
            { contentLength := some 100, contentRange := none, acceptRanges := true } }]).2.1.chunkable
        (optGetNum (xHeadDataModel (mkStore none 0 4 5) none
          [some { status := 200, headers :=
            { contentLength := some 100, contentRange := none, acceptRanges := true } }]).2.1.size)
        (mkStore none 0 4 5).chunks :=
  c6_chunk_count_amended (mkStore none 0 4 5) none _ (by decide) (by decide)

/-- Counterexample for C5 as stated: a probe answered 416 (with a
`content-range` carrying a learnable total length) does not produce
`chunkable = false` — the 416 is rejected as non-2xx by the retry
interceptor, the probe fails after the retries, and the store keeps its
initial `chunkable = true`. -/
theorem c5_counterexample :
    (xHeadDataModel (mkStore none 0 5 2) none (List.replicate 3 (some
        { status := 416, headers :=
          { contentLength := none, contentRange := some 100, acceptRanges := false } }))).2.1.chunkable
      = true ∧
    (xHeadDataModel (mkStore none 0 5 2) none (List.replicate 3 (some
        { status := 416, headers :=
          { contentLength := none, contentRange := some 100, acceptRanges := false } }))).2.2
      = Except.error (ProbeErr.http 416) := by
  exact ⟨by decide, rfl⟩

/-- C5 (amended): after a successful (necessarily 2xx) probe, `chunkable`
is true iff the probe deemed the server range-capable (a missing
`content-length` header with a present `content-range`, or otherwise the
`accept-ranges: bytes` header) and the recorded `totalSize` is finite.  A
416 probe response never yields a successful probe: it is retried as a
non-2xx response and the probe ultimately fails with the 416 error, the
store left untouched (its `chunkable` flag keeps its prior value). -/
theorem c5_chunkable_amended :
    (∀ (store : HeadStore) (offset : Option Int) (resp : HttpResponse),
      200 ≤ resp.status → resp.status < 300 →
      ∃ ld, (xHeadDataModel store offset [some resp]).2.2 = Except.ok ld ∧
        ld.chunkable = (specAdvertisesRanges resp &&
          optIsFinite (xHeadDataModel store offset [some resp]).2.1.totalSize)) ∧
    (∀ (store : HeadStore) (offset : Option Int) (resp : HttpResponse),
      resp.status = 416 →
      (xHeadDataModel store offset (List.replicate (store.retries + 1) (some resp))).2.1 = store ∧
      (xHeadDataModel store offset
        (List.replicate (store.retries + 1) (some resp))).2.2 = Except.error (ProbeErr.http 416)) := by
  constructor
  · intro store offset resp h2 h3
    rw [xHeadDataModel_single_ok store offset resp h2 h3, xHeadUpdate_eq]
    refine ⟨_, rfl, ?_⟩
    show probeChunkable store (respToGetData resp) = _
    unfold probeChunkable
    rw [xAcceptsRanges_respToGetData resp (by omega)]
  · intro store offset resp h416
    have hfail : ¬ (200 ≤ resp.status ∧ resp.status < 300) := by omega
    have h403 : resp.status ≠ 403 := by omega
    have hloop := getContentLoop_persistent resp hfail h403 store.retries store.retries 0
      (by omega)
    rw [xHeadDataModel_err store offset _ (ProbeErr.http resp.status) (by rw [hloop])]
    exact ⟨rfl, by rw [h416]⟩

/-- Witness for the amended C5: a 2xx probe of a 100-byte range-supporting
resource, and a 416 probe with one configured retry. -/
theorem c5_chunkable_amended_witness :
    (∃ ld, (xHeadDataModel (mkStore none 0 5 5) none
        [some { status := 200, headers :=
          { contentLength := some 100, contentRange := none, acceptRanges := true } }]).2.2 =
        Except.ok ld ∧
      ld.chunkable = (specAdvertisesRanges
          { status := 200, headers :=
            { contentLength := some 100, contentRange := none, acceptRanges := true } } &&
        optIsFinite (xHeadDataModel (mkStore none 0 5 5) none
          [some { status := 200, headers :=
            { contentLength := some 100, contentRange := none, acceptRanges := true } }]).2.1.totalSize)) ∧
    ((xHeadDataModel (mkStore none 0 5 1) none (List.replicate ((mkStore none 0 5 1).retries + 1)
        (some { status := 416, headers :=
          { contentLength := none, contentRange := none, acceptRanges := false } }))).2.1 =
      mkStore none 0 5 1 ∧
     (xHeadDataModel (mkStore none 0 5 1) none (List.replicate ((mkStore none 0 5 1).retries + 1)
        (some { status := 416, headers :=
          { contentLength := none, contentRange := none, acceptRanges := false } }))).2.2 =
      Except.error (ProbeErr.http 416)) :=
  ⟨c5_chunkable_amended.1 (mkStore none 0 5 5) none _ (by decide) (by decide),
   c5_chunkable_amended.2 (mkStore none 0 5 1) none _ (by decide)⟩

/-- Counterexample for C8 as stated: an HTTP 403 probe response fails
immediately with the 403 error and emits NO meta retry event at all — the
internal retry counter never reaches 1, so there is no observable
`retryCount = 1`. -/
theorem c8_counterexample :
    (xHeadDataModel (mkStore none 0 5 5) none
        [some { status := 403, headers :=
          { contentLength := some 9, contentRange := none, acceptRanges := true } }]).1 = [] ∧
    (xHeadDataModel (mkStore none 0 5 5) none
        [some { status := 403, headers :=
          { contentLength := some 9, contentRange := none, acceptRanges := true } }]).2.2 =
      Except.error (ProbeErr.http 403) :=
  ⟨rfl, rfl⟩

/-- C8 (amended): a failing probe is retried up to the configured retry
count, each retry emitting a meta-tagged retry event with `retryCount`
equal to the number of retries so far (1, 2, …, retries), after which the
probe fails with the last HTTP error; an HTTP 403 probe response is never
retried — it fails immediately, emitting zero meta retry events
(independently of any further attempts the environment could answer). -/
theorem c8_meta_retry_amended :
    (∀ (store : HeadStore) (offset : Option Int) (resp : HttpResponse),
      ¬ (200 ≤ resp.status ∧ resp.status < 300) → resp.status ≠ 403 →
      xHeadDataModel store offset (List.replicate (store.retries + 1) (some resp)) =
        ((List.range store.retries).map (fun t =>
          { meta := true, retryCount := t + 1, maxRetries := store.retries,
            lastErrStatus := some resp.status }), store,
         Except.error (ProbeErr.http resp.status))) ∧
    (∀ (store : HeadStore) (offset : Option Int) (resp : HttpResponse)
        (rest : List (Option HttpResponse)), resp.status = 403 →
      xHeadDataModel store offset (some resp :: rest) =
        ([], store, Except.error (ProbeErr.http 403))) := by
  constructor
  · intro store offset resp hfail h403
    have hloop := getContentLoop_persistent resp hfail h403 store.retries store.retries 0
      (by omega)
    rw [xHeadDataModel_err store offset _ (ProbeErr.http resp.status) (by rw [hloop]), hloop]
    simp
  · intro store offset resp rest h403
    have hloop := getContentLoop_403 store.retries 0 resp h403 rest
    rw [xHeadDataModel_err store offset _ (ProbeErr.http resp.status) (by rw [hloop]), hloop,
      h403]

/-- Witness for the amended C8: two configured retries against a server
answering 500 three times, and a 403 first answer. -/
theorem c8_meta_retry_amended_witness :
    xHeadDataModel (mkStore none 0 5 2) none (List.replicate ((mkStore none 0 5 2).retries + 1)
        (some { status := 500, headers :=
          { contentLength := none, contentRange := none, acceptRanges := false } })) =
      ((List.range (mkStore none 0 5 2).retries).map (fun t =>
        { meta := true, retryCount := t + 1, maxRetries := (mkStore none 0 5 2).retries,
          lastErrStatus := some 500 }), mkStore none 0 5 2,
       Except.error (ProbeErr.http 500)) ∧
    xHeadDataModel (mkStore none 0 5 2) none
        [some { status := 403, headers :=
          { contentLength := none, contentRange := none, acceptRanges := false } }] =
      ([], mkStore none 0 5 2, Except.error (ProbeErr.http 403)) :=
  ⟨c8_meta_retry_amended.1 (mkStore none 0 5 2) none _ (by decide) (by decide),
   c8_meta_retry_amended.2 (mkStore none 0 5 2) none _ [] (by decide)⟩

/-- Counterexample for C9 as stated: with `start` overridden to the exact
total size (size = 0) the run does end immediately in the `Ended` state,
but a segment IS created — `xHeadData` builds the chunk stack (one
zero-sized segment) before `initHead` checks the size, so "no segments
are created" is false; they are merely never started. -/
theorem c9_counterexample :
    (initHeadModel (mkStore none 0 5 5) (some 100)
        [some { status := 200, headers :=
          { contentLength := some 100, contentRange := none, acceptRanges := true } }]).2.2 =
      InitOutcome.endedEarly ∧
    (initHeadModel (mkStore none 0 5 5) (some 100)
        [some { status := 200, headers :=
          { contentLength := some 100, contentRange := none, acceptRanges := true } }]).2.1.chunkStack.length
      = 1 := by
  exact ⟨rfl, rfl⟩

/-- C9 (amended): after the probe, a negative computed size destroys the
instance with the range-exceeded error carrying the store's `start` and
`totalSize`; a zero computed size ends the output immediately (`ended`
state, only the end-of-stream `null` is pushed) and the single zero-sized
segment descriptor that `xHeadData` already built is never started
(`handleLoad` is not reached). -/
theorem c9_zero_negative_amended (store : HeadStore) (offset : Option Int)
    (resp : HttpResponse) (h2 : 200 ≤ resp.status) (h3 : resp.status < 300)
    (hcfg : 1 ≤ store.chunks) :
    (∀ q : Int, q < 0 →
      (xHeadDataModel store offset [some resp]).2.1.size = some (XNum.fin q) →
      (initHeadModel store offset [some resp]).2.2 =
        InitOutcome.destroyed (initHeadModel store offset [some resp]).2.1.start
          (initHeadModel store offset [some resp]).2.1.totalSize) ∧
    ((xHeadDataModel store offset [some resp]).2.1.size = some (XNum.fin 0) →
      (initHeadModel store offset [some resp]).2.2 = InitOutcome.endedEarly ∧
      (initHeadModel store offset [some resp]).2.1.ended = true ∧
      (initHeadModel store offset [some resp]).2.1.chunkStack.length = 1) := by
  have hok := xHeadDataModel_single_ok store offset resp h2 h3
  constructor
  · intro q hq hsize
    have hsize1 : (xHeadUpdate store offset (respToGetData resp)).size = some (XNum.fin q) := by
      rw [hok] at hsize
      exact hsize
    simp only [initHeadModel, hok]
    simp only [hsize1, optGetNum, xltb_fin, decide_eq_true_eq]
    rw [if_pos hq]
  · intro hsize
    have hsize1 : (xHeadUpdate store offset (respToGetData resp)).size = some (XNum.fin 0) := by
      rw [hok] at hsize
      exact hsize
    have hsizep : probeSize store offset (respToGetData resp) = some (XNum.fin 0) := by
      rw [xHeadUpdate_eq] at hsize1
      exact hsize1
    have hchunks1 : probeChunks store offset (respToGetData resp) = 1 := by
      unfold probeChunks
      rw [hsizep]
      by_cases hc : probeChunkable store (respToGetData resp) = true
      · simp only [hc, if_true, optGetNum]
        have h05 : xltb (XNum.fin 0) (XNum.fin store.chunks) = true := by
          simp only [xltb_fin, decide_eq_true_eq]
          omega
        rw [if_pos h05, if_pos (by decide)]
      · simp only [Bool.not_eq_true] at hc
        simp [hc, optGetNum, xltb]
    simp only [initHeadModel, hok, xHeadUpdate_eq]
    simp only [hsizep, optGetNum, xltb_fin]
    simp only [show (decide ((0 : Int) < 0)) = false from rfl, Bool.false_eq_true, if_false,
      if_pos rfl]
    refine ⟨rfl, rfl, ?_⟩
    simp only [buildChunks_length, parseSplitSpec, hchunks1]
    rfl

/-! ## StreamCache list lemmas -/

theorem sum_map_set {α : Type} (f : α → Int) (l : List α) (i : Nat) (x : α)
    (h : i < l.length) :
    ((l.set i x).map f).sum + f l[i] = (l.map f).sum + f x := by
  induction l generalizing i with
  | nil => simp at h
  | cons a t ih =>
    cases i with
    | zero => simp [List.set]; ring
    | succ i =>
      simp only [List.set, List.map_cons, List.sum_cons, List.getElem_cons_succ]
      have := ih i (by simpa using h)
      omega

theorem countP_set {α : Type} (p : α → Bool) (l : List α) (i : Nat) (x : α)
    (h : i < l.length) :
    (l.set i x).countP p + (if p l[i] then 1 else 0) =
      l.countP p + (if p x then 1 else 0) := by
  induction l generalizing i with
  | nil => simp at h
  | cons a t ih =>
    cases i with
    | zero => simp [List.set, List.countP_cons]; omega
    | succ i =>
      simp only [List.set, List.countP_cons, List.getElem_cons_succ]
      have := ih i (by simpa using h)
      omega

theorem countP_eraseIdx {α : Type} (p : α → Bool) (l : List α) (i : Nat)
    (h : i < l.length) :
    (l.eraseIdx i).countP p + (if p l[i] then 1 else 0) = l.countP p := by
  induction l generalizing i with
  | nil => simp at h
  | cons a t ih =>
    cases i with
    | zero => simp [List.eraseIdx, List.countP_cons]
    | succ i =>
      simp only [List.eraseIdx, List.countP_cons, List.getElem_cons_succ]
      have := ih i (by simpa using h)
      omega

theorem take_set_self {α : Type} (l : List α) (j : Nat) (x : α) :
    (l.set j x).take j = l.take j := by
  induction l generalizing j with
  | nil => simp
  | cons a t ih =>
    cases j with
    | zero => simp
    | succ j => simp [List.set, ih]

theorem take_eraseIdx_self {α : Type} (l : List α) (j : Nat) :
    (l.eraseIdx j).take j = l.take j := by
  induction l generalizing j with
  | nil => simp
  | cons a t ih =>
    cases j with
    | zero => simp [List.eraseIdx]
    | succ j => simp [List.eraseIdx, ih]

theorem drop_eraseIdx_self {α : Type} (l : List α) (j : Nat) :
    (l.eraseIdx j).drop j = l.drop (j + 1) := by
  induction l generalizing j with
  | nil => simp
  | cons a t ih =>
    cases j with
    | zero => simp [List.eraseIdx]
    | succ j => simp [List.eraseIdx, ih]

theorem drop_set_self {α : Type} (l : List α) (j : Nat) (x : α) (h : j < l.length) :
    (l.set j x).drop j = x :: l.drop (j + 1) := by
  induction l generalizing j with
  | nil => simp at h
  | cons a t ih =>
    cases j with
    | zero => simp [List.set]
    | succ j =>
      simp only [List.set, List.drop_succ_cons]
      exact ih j (by simpa using h)

theorem sum_map_append_one {α : Type} (f : α → Int) (l : List α) (x : α) :
    ((l ++ [x]).map f).sum = (l.map f).sum + f x := by
  simp

theorem getElem?_eq_some_lt {α : Type} (l : List α) (i : Nat) (x : α)
    (h : l[i]? = some x) : i < l.length :=
  (List.getElem?_eq_some.mp h).1

theorem getElem?_eq_some_getElem {α : Type} (l : List α) (i : Nat) (x : α)
    (h : l[i]? = some x) : ∃ hi : i < l.length, l[i] = x := by
  have hi := getElem?_eq_some_lt l i x h
  refine ⟨hi, ?_⟩
  rw [List.getElem?_eq_getElem hi] at h
  exact Option.some.inj h

theorem dispinv_update (s : SC) (index sid : Nat) (stack newSlot : Slot)
    (q2 : List AllocEntry) (len2 : Int) (cb2 : List Nat) (rb : Bool)
    (hinv : DispInv s index)
    (hstack : s.slots[sid]? = some stack)
    (hlen : len2 = totalBuffered s - (bufferedBytes stack : Int) + (bufferedBytes newSlot : Int))
    (hcap : len2 ≤ s.maxCapacity)
    (hacc : newSlot.pendingWrites =
      (newSlot.buffer.length : Int) + (q2.countP (fun e => e.slotId == some sid) : Int))
    (hpr : 0 ≤ newSlot.pendingReads)
    (hprbuf : newSlot.pendingReads ≠ 0 → newSlot.buffer = [])
    (hprzero : (∃ e ∈ s.allocBuffer.take index, e.slotId = some sid) →
      newSlot.pendingReads = 0)
    (hq_take : q2.take index = s.allocBuffer.take index)
    (hq_other : ∀ sid', sid' ≠ sid →
      q2.countP (fun e => e.slotId == some sid') = queueCountFor s sid')
    (hq_entries : ∀ e ∈ q2, ∃ sid', e.slotId = some sid' ∧ sid' < s.slots.length) :
    DispInv (SC.withSlot s sid newSlot len2 q2 cb2 rb) index := by
  obtain ⟨hlenacc, hcap0, hent, hslots, hpre⟩ := hinv
  obtain ⟨hsidlt, hgetsid⟩ := getElem?_eq_some_getElem _ _ _ hstack
  refine ⟨?_, hcap, ?_, ?_, ?_⟩
  · show len2 = totalBuffered _
    unfold totalBuffered at hlenacc ⊢
    unfold SC.withSlot
    simp only []
    have hss := sum_map_set (fun sl => ((bufferedBytes sl : Int))) s.slots sid newSlot hsidlt
    rw [hgetsid] at hss
    unfold totalBuffered at hlen
    omega
  · intro e he
    obtain ⟨sid', h1, h2⟩ := hq_entries e he
    exact ⟨sid', h1, by simpa [SC.withSlot, List.length_set] using h2⟩
  · intro sid' slot' hslot'
    simp only [SC.withSlot] at hslot'
    by_cases hs : sid' = sid
    · subst hs
      rw [List.getElem?_set_self hsidlt] at hslot'
      cases hslot'
      exact ⟨hacc, hpr, hprbuf⟩
    · rw [List.getElem?_set_ne (fun hh => hs hh.symm)] at hslot'
      obtain ⟨h1, h2, h3⟩ := hslots sid' slot' hslot'
      refine ⟨?_, h2, h3⟩
      rw [h1]
      unfold queueCountFor
      rw [show (SC.withSlot s sid newSlot len2 q2 cb2 rb).allocBuffer = q2 from rfl,
        hq_other sid' hs]
      rfl
  · intro e he sid' hesid slot' hslot'
    rw [show (SC.withSlot s sid newSlot len2 q2 cb2 rb).allocBuffer = q2 from rfl,
      hq_take] at he
    simp only [SC.withSlot] at hslot'
    by_cases hs : sid' = sid
    · subst hs
      rw [List.getElem?_set_self hsidlt] at hslot'
      cases hslot'
      exact hprzero ⟨e, he, hesid⟩
    · rw [List.getElem?_set_ne (fun hh => hs hh.symm)] at hslot'
      exact hpre e he sid' hesid slot' hslot'

theorem dispinv_skip (s : SC) (index sid : Nat) (stack : Slot)
    (hinv : DispInv s index) (h : index < s.allocBuffer.length)
    (hsid : s.allocBuffer[index].slotId = some sid)
    (hstack : s.slots[sid]? = some stack)
    (hpR0 : stack.pendingReads = 0) :
    DispInv s (index + 1) := by
  obtain ⟨h1, h2, h3, h4, hpre⟩ := hinv
  refine ⟨h1, h2, h3, h4, ?_⟩
  intro e he sid' hesid slot' hslot'
  rw [List.take_succ] at he
  rcases List.mem_append.mp he with hmem | hmem
  · exact hpre e hmem sid' hesid slot' hslot'
  · rw [List.getElem?_eq_getElem h] at hmem
    simp only [Option.toList_some, List.mem_singleton] at hmem
    subst hmem
    rw [hsid] at hesid
    cases hesid
    rw [hstack] at hslot'
    cases hslot'
    exact hpR0

theorem beq_some_eval (a b : Nat) : (some a == some b) = decide (a = b) := by
  rcases Nat.decEq a b with h | h
  · simp_all
  · simp_all

theorem countFor_eraseIdx (s : SC) (index : Nat) (h : index < s.allocBuffer.length)
    (sid sid' : Nat) (hsid : s.allocBuffer[index].slotId = some sid) :
    ((s.allocBuffer.eraseIdx index).countP (fun e => e.slotId == some sid') : Int) =
      (queueCountFor s sid' : Int) - (if sid' = sid then 1 else 0) := by
  have hc := countP_eraseIdx (fun e => e.slotId == some sid') s.allocBuffer index h
  rw [hsid] at hc
  unfold queueCountFor
  by_cases hss : sid' = sid
  · subst hss
    have h1 : (some sid' == some sid') = true := by simp
    rw [h1, if_pos rfl] at hc
    have h2 : (if sid' = sid' then (1:Int) else 0) = 1 := if_pos rfl
    rw [h2]
    omega
  · have hbe : (some sid == some sid') = false := by
      rw [beq_some_eval]
      simp
      omega
    rw [hbe, if_neg (by simp)] at hc
    simp only [if_neg hss]
    omega

theorem countFor_set_same (s : SC) (index : Nat) (h : index < s.allocBuffer.length)
    (newe : AllocEntry) (hsame : newe.slotId = s.allocBuffer[index].slotId)
    (sid' : Nat) :
    (s.allocBuffer.set index newe).countP (fun e => e.slotId == some sid') =
      queueCountFor s sid' := by
  have hc := countP_set (fun e => e.slotId == some sid') s.allocBuffer index newe h
  rw [← hsame] at hc
  unfold queueCountFor
  omega

theorem dispatchIter_done (s : SC) (index : Nat) (s1 : SC)
    (hiter : dispatchIter s index = DispRes.done s1) :
    s1 = s ∧ s.allocBuffer.length ≤ index := by
  by_cases hlt : index < s.allocBuffer.length
  · exfalso
    unfold dispatchIter at hiter
    rw [dif_pos hlt] at hiter
    rcases hsid : s.allocBuffer[index].slotId with _ | sid
    · simp [hsid] at hiter
    · simp only [hsid] at hiter
      rcases hstack : s.slots[sid]? with _ | stack
      · simp [hstack] at hiter
      · simp only [hstack] at hiter
        by_cases hfull : s.maxCapacity - s.length ≤ 0
        · rw [if_pos hfull] at hiter
          by_cases hsucc : (readOn stack s.length (some s.allocBuffer[index].chunk)).success = true
          · by_cases halt : (readOn stack s.length (some s.allocBuffer[index].chunk)).usedAlt = true
            · simp [hsucc, halt] at hiter
            · simp [hsucc, halt] at hiter
          · simp [hsucc] at hiter
        · rw [if_neg hfull] at hiter
          simp at hiter
  · unfold dispatchIter at hiter
    rw [dif_neg hlt] at hiter
    cases hiter
    exact ⟨rfl, by omega⟩

theorem readOn_pR0 (slot : Slot) (len : Int) (alt : Option (Option ByteChunk))
    (h : slot.pendingReads = 0) :
    readOn slot len alt = { slot := slot, length := len, success := false, usedAlt := false } := by
  unfold readOn readOnAlt
  cases slot.buffer <;> simp [h]

theorem readOn_alt_hit (slot : Slot) (len : Int) (c : Option ByteChunk)
    (hb : slot.buffer = []) (hp : slot.pendingReads ≠ 0) :
    readOn slot len (some c) =
      { slot :=
          { slot with
              pendingWrites := slot.pendingWrites - 1
              pendingReads := slot.pendingReads - 1 }
        length := len, success := true, usedAlt := true } := by
  unfold readOn readOnAlt
  rw [hb]
  simp [hp]

theorem readOn_pop_none (slot : Slot) (len : Int) (alt : Option (Option ByteChunk))
    (rest : List (Option ByteChunk)) (hb : slot.buffer = none :: rest)
    (hp : slot.pendingReads ≠ 0) :
    readOn slot len alt =
      { slot :=
          { buffer := rest
            pendingWrites := slot.pendingWrites - 1
            pendingReads := slot.pendingReads - 1 }
        length := len, success := true, usedAlt := false } := by
  unfold readOn
  rw [hb]
  simp [hp]

theorem readOn_pop_some (slot : Slot) (len : Int) (alt : Option (Option ByteChunk))
    (b : ByteChunk) (rest : List (Option ByteChunk)) (hb : slot.buffer = some b :: rest)
    (hp : slot.pendingReads ≠ 0) :
    readOn slot len alt =
      { slot :=
          { buffer := rest
            pendingWrites := slot.pendingWrites - 1
            pendingReads := slot.pendingReads - 1 }
        length := len - (b.length : Int), success := true, usedAlt := false } := by
  unfold readOn
  rw [hb]
  simp [hp]

theorem bufferedBytes_append (buf : List (Option ByteChunk)) (c : Option ByteChunk)
    (pw pr : Int) :
    bufferedBytes { buffer := buf ++ [c], pendingWrites := pw, pendingReads := pr } =
      (bufferedBytes { buffer := buf, pendingWrites := pw, pendingReads := pr }) +
        (c.getD []).length := by
  unfold bufferedBytes
  simp

theorem bufferedBytes_nil (pw pr : Int) :
    bufferedBytes { buffer := [], pendingWrites := pw, pendingReads := pr } = 0 := rfl

theorem bufferedBytes_congr (sl sl' : Slot) (h : sl.buffer = sl'.buffer) :
    bufferedBytes sl = bufferedBytes sl' := by
  unfold bufferedBytes
  rw [h]

theorem dispatchIter_progress_full (s : SC) (index : Nat) (s1 : SC) (i1 : Nat)
    (hinv : DispInv s index) (hlt : index < s.allocBuffer.length)
    (hfull : s.maxCapacity - s.length ≤ 0)
    (hiter : dispatchIter s index = DispRes.cont s1 i1) :
    DispInv s1 i1 := by
  obtain ⟨hlen0, hcap0, hent0, hslots0, hpre0⟩ := hinv
  unfold dispatchIter at hiter
  rw [dif_pos hlt] at hiter
  rcases hsid : s.allocBuffer[index].slotId with _ | sid
  · simp [hsid] at hiter
  · simp only [hsid] at hiter
    rcases hstack : s.slots[sid]? with _ | stack
    · simp [hstack] at hiter
    · simp only [hstack] at hiter
      rw [if_pos hfull] at hiter
      obtain ⟨hsw, hpr0, hprb⟩ := hslots0 sid stack hstack
      by_cases hprz : stack.pendingReads = 0
      · rw [readOn_pR0 stack s.length (some s.allocBuffer[index].chunk) hprz] at hiter
        simp at hiter
        obtain ⟨h1, h2⟩ := hiter
        subst h1
        subst h2
        exact dispinv_skip s index sid stack ⟨hlen0, hcap0, hent0, hslots0, hpre0⟩
          hlt hsid hstack hprz
      · have hb : stack.buffer = [] := hprb hprz
        rw [readOn_alt_hit stack s.length (s.allocBuffer[index].chunk) hb hprz] at hiter
        simp at hiter
        obtain ⟨h1, h2⟩ := hiter
        subst h1
        subst h2
        refine dispinv_update s index sid stack _ _ _ _ _
          ⟨hlen0, hcap0, hent0, hslots0, hpre0⟩ hstack ?_ ?_ ?_ ?_ ?_ ?_ ?_ ?_ ?_
        · have hbb : bufferedBytes
              { stack with
                  pendingWrites := stack.pendingWrites - 1
                  pendingReads := stack.pendingReads - 1 } = bufferedBytes stack := rfl
          omega
        · exact hcap0
        · have hcnt := countFor_eraseIdx s index hlt sid sid hsid
          rw [if_pos rfl] at hcnt
          have hbl : stack.buffer.length = 0 := by rw [hb]; rfl
          show stack.pendingWrites - 1 = (stack.buffer.length : Int) +
            ((s.allocBuffer.eraseIdx index).countP (fun e => e.slotId == some sid) : Int)
          omega
        · show (0 : Int) ≤ stack.pendingReads - 1
          omega
        · intro _
          exact hb
        · intro hex
          obtain ⟨e2, he2, hesid2⟩ := hex
          exact absurd (hpre0 e2 he2 sid hesid2 stack hstack) hprz
        · exact take_eraseIdx_self _ _
        · intro sid' hne
          have hcnt := countFor_eraseIdx s index hlt sid sid' hsid
          rw [if_neg hne] at hcnt
          omega
        · intro e' he'
          exact hent0 e' ((List.eraseIdx_sublist s.allocBuffer index).subset he')

theorem drop_append_small {α : Type} (l1 l2 : List α) (n : Nat) (h : n ≤ l1.length) :
    (l1 ++ l2).drop n = l1.drop n ++ l2 := by
  induction l1 generalizing n with
  | nil =>
    simp at h
    subst h
    simp
  | cons a t ih =>
    cases n with
    | zero => simp
    | succ n => simpa using ih n (by simpa using h)

theorem length_eraseIdx_lt {α : Type} (l : List α) (i : Nat) (h : i < l.length) :
    (l.eraseIdx i).length = l.length - 1 := by
  induction l generalizing i with
  | nil => simp at h
  | cons a t ih =>
    cases i with
    | zero => simp [List.eraseIdx]
    | succ i =>
      simp only [List.eraseIdx, List.length_cons]
      rw [ih i (by simpa using h)]
      have : i < t.length := by simpa using h
      omega

theorem dispatchIter_nonfull_none (s : SC) (index : Nat) (s1 : SC) (i1 : Nat)
    (hinv : DispInv s index) (hlt : index < s.allocBuffer.length)
    (hfull : ¬ s.maxCapacity - s.length ≤ 0)
    (hchunk : s.allocBuffer[index].chunk = none)
    (hiter : dispatchIter s index = DispRes.cont s1 i1) :
    DispInv s1 i1 := by
  obtain ⟨hlen0, hcap0, hent0, hslots0, hpre0⟩ := hinv
  unfold dispatchIter at hiter
  rw [dif_pos hlt] at hiter
  rcases hsid : s.allocBuffer[index].slotId with _ | sid
  · simp [hsid] at hiter
  · simp only [hsid] at hiter
    rcases hstack : s.slots[sid]? with _ | stack
    · simp [hstack] at hiter
    · simp only [hstack] at hiter
      rw [if_neg hfull] at hiter
      obtain ⟨hsw, hpr0, hprb⟩ := hslots0 sid stack hstack
      have hcnt := countFor_eraseIdx s index hlt sid sid hsid
      rw [if_pos rfl] at hcnt
      simp [hchunk] at hiter
      obtain ⟨h1, h2⟩ := hiter
      subst h2
      subst h1
      split
      next hc =>
        have hprz : stack.pendingReads = 0 := hc
        refine dispinv_update s index sid stack _ _ _ _ _
          ⟨hlen0, hcap0, hent0, hslots0, hpre0⟩ hstack ?_ ?_ ?_ ?_ ?_ ?_ ?_ ?_ ?_
        · have hba := bufferedBytes_append stack.buffer none stack.pendingWrites stack.pendingReads
          have he : ({ buffer := stack.buffer, pendingWrites := stack.pendingWrites, pendingReads := stack.pendingReads } : Slot) = stack := rfl
          rw [he] at hba
          simp at hba
          omega
        · exact hcap0
        · simp
          omega
        · show (0 : Int) ≤ stack.pendingReads
          omega
        · intro hk
          exact absurd hprz hk
        · intro _
          exact hprz
        · exact take_eraseIdx_self _ _
        · intro sid' hne
          have hcnt' := countFor_eraseIdx s index hlt sid sid' hsid
          rw [if_neg hne] at hcnt'
          omega
        · intro e' he'
          exact hent0 e' ((List.eraseIdx_sublist s.allocBuffer index).subset he')
      next hc =>
        have hprz : stack.pendingReads ≠ 0 := hc
        have hb : stack.buffer = [] := hprb hprz
        have hbs : ({ stack with buffer := stack.buffer ++ [none] } : Slot).buffer =
            (none : Option ByteChunk) :: [] := by
          show stack.buffer ++ [none] = _
          rw [hb]
          rfl
        rw [readOn_pop_none { stack with buffer := stack.buffer ++ [none] } s.length none
          [] hbs hprz]
        split
        next =>
          refine dispinv_update s index sid stack _ _ _ _ _
            ⟨hlen0, hcap0, hent0, hslots0, hpre0⟩ hstack ?_ ?_ ?_ ?_ ?_ ?_ ?_ ?_ ?_
          · simp [bufferedBytes, hb]
            omega
          · exact hcap0
          · have hbl : stack.buffer.length = 0 := by rw [hb]; rfl
            simp
            omega
          · show (0 : Int) ≤ stack.pendingReads - 1
            omega
          · intro _
            rfl
          · intro hex
            obtain ⟨e2, he2, hesid2⟩ := hex
            exact absurd (hpre0 e2 he2 sid hesid2 stack hstack) hprz
          · exact take_eraseIdx_self _ _
          · intro sid' hne
            have hcnt' := countFor_eraseIdx s index hlt sid sid' hsid
            rw [if_neg hne] at hcnt'
            omega
          · intro e' he'
            exact hent0 e' ((List.eraseIdx_sublist s.allocBuffer index).subset he')
        next hfail =>
          exact absurd rfl hfail

theorem dispatchIter_nonfull_fits (s : SC) (index : Nat) (s1 : SC) (i1 : Nat)
    (b : ByteChunk)
    (hinv : DispInv s index) (hlt : index < s.allocBuffer.length)
    (hfull : ¬ s.maxCapacity - s.length ≤ 0)
    (hchunk : s.allocBuffer[index].chunk = some b)
    (hofl : ¬ ((b.length : Int) > s.maxCapacity - s.length))
    (hiter : dispatchIter s index = DispRes.cont s1 i1) :
    DispInv s1 i1 := by
  obtain ⟨hlen0, hcap0, hent0, hslots0, hpre0⟩ := hinv
  unfold dispatchIter at hiter
  rw [dif_pos hlt] at hiter
  rcases hsid : s.allocBuffer[index].slotId with _ | sid
  · simp [hsid] at hiter
  · simp only [hsid] at hiter
    rcases hstack : s.slots[sid]? with _ | stack
    · simp [hstack] at hiter
    · simp only [hstack] at hiter
      rw [if_neg hfull] at hiter
      obtain ⟨hsw, hpr0, hprb⟩ := hslots0 sid stack hstack
      have hcnt := countFor_eraseIdx s index hlt sid sid hsid
      rw [if_pos rfl] at hcnt
      simp [hchunk, hofl] at hiter
      obtain ⟨h1, h2⟩ := hiter
      subst h2
      subst h1
      split
      next hc =>
        have hprz : stack.pendingReads = 0 := hc
        refine dispinv_update s index sid stack _ _ _ _ _
          ⟨hlen0, hcap0, hent0, hslots0, hpre0⟩ hstack ?_ ?_ ?_ ?_ ?_ ?_ ?_ ?_ ?_
        · have hba := bufferedBytes_append stack.buffer (some b) stack.pendingWrites stack.pendingReads
          have he : ({ buffer := stack.buffer, pendingWrites := stack.pendingWrites, pendingReads := stack.pendingReads } : Slot) = stack := rfl
          rw [he] at hba
          simp at hba
          omega
        · show s.length + (b.length : Int) ≤ s.maxCapacity
          omega
        · simp
          omega
        · show (0 : Int) ≤ stack.pendingReads
          omega
        · intro hk
          exact absurd hprz hk
        · intro _
          exact hprz
        · exact take_eraseIdx_self _ _
        · intro sid' hne
          have hcnt' := countFor_eraseIdx s index hlt sid sid' hsid
          rw [if_neg hne] at hcnt'
          omega
        · intro e' he'
          exact hent0 e' ((List.eraseIdx_sublist s.allocBuffer index).subset he')
      next hc =>
        have hprz : stack.pendingReads ≠ 0 := hc
        have hb : stack.buffer = [] := hprb hprz
        have hbs : ({ stack with buffer := stack.buffer ++ [some b] } : Slot).buffer =
            (some b : Option ByteChunk) :: [] := by
          show stack.buffer ++ [some b] = _
          rw [hb]
          rfl
        rw [readOn_pop_some { stack with buffer := stack.buffer ++ [some b] }
          (s.length + (b.length : Int)) none b [] hbs hprz]
        split
        next =>
          refine dispinv_update s index sid stack _ _ _ _ _
            ⟨hlen0, hcap0, hent0, hslots0, hpre0⟩ hstack ?_ ?_ ?_ ?_ ?_ ?_ ?_ ?_ ?_
          · simp [bufferedBytes, hb]
            omega
          · show s.length + (b.length : Int) - (b.length : Int) ≤ s.maxCapacity
            omega
          · have hbl : stack.buffer.length = 0 := by rw [hb]; rfl
            simp
            omega
          · show (0 : Int) ≤ stack.pendingReads - 1
            omega
          · intro _
            rfl
          · intro hex
            obtain ⟨e2, he2, hesid2⟩ := hex
            exact absurd (hpre0 e2 he2 sid hesid2 stack hstack) hprz
          · exact take_eraseIdx_self _ _
          · intro sid' hne
            have hcnt' := countFor_eraseIdx s index hlt sid sid' hsid
            rw [if_neg hne] at hcnt'
            omega
          · intro e' he'
            exact hent0 e' ((List.eraseIdx_sublist s.allocBuffer index).subset he')
        next hfail =>
          exact absurd rfl hfail

theorem dispatchIter_nonfull_over_seq (s : SC) (index : Nat) (s1 : SC) (i1 : Nat)
    (b : ByteChunk)
    (hinv : DispInv s index) (hlt : index < s.allocBuffer.length)
    (hfull : ¬ s.maxCapacity - s.length ≤ 0)
    (hchunk : s.allocBuffer[index].chunk = some b)
    (hofl : (b.length : Int) > s.maxCapacity - s.length)
    (hre : s.reallocate = false)
    (hiter : dispatchIter s index = DispRes.cont s1 i1) :
    DispInv s1 i1 := by
  obtain ⟨hlen0, hcap0, hent0, hslots0, hpre0⟩ := hinv
  unfold dispatchIter at hiter
  rw [dif_pos hlt] at hiter
  rcases hsid : s.allocBuffer[index].slotId with _ | sid
  · simp [hsid] at hiter
  · simp only [hsid] at hiter
    rcases hstack : s.slots[sid]? with _ | stack
    · simp [hstack] at hiter
    · simp only [hstack] at hiter
      rw [if_neg hfull] at hiter
      obtain ⟨hsw, hpr0, hprb⟩ := hslots0 sid stack hstack
      have hsidlt : sid < s.slots.length := getElem?_eq_some_lt s.slots sid stack hstack
      have hn : (((s.maxCapacity - s.length).toNat : Nat) : Int) = s.maxCapacity - s.length :=
        Int.toNat_of_nonneg (by omega)
      have hnb : (s.maxCapacity - s.length).toNat ≤ b.length := by omega
      simp [hchunk, hofl, hre] at hiter
      obtain ⟨h1, h2⟩ := hiter
      subst h2
      subst h1
      split
      next hc =>
        have hprz : stack.pendingReads = 0 := hc
        refine dispinv_update s index sid stack _ _ _ _ _
          ⟨hlen0, hcap0, hent0, hslots0, hpre0⟩ hstack ?_ ?_ ?_ ?_ ?_ ?_ ?_ ?_ ?_
        · have hba := bufferedBytes_append stack.buffer
            (some (b.take (s.maxCapacity - s.length).toNat)) (stack.pendingWrites + 1)
            stack.pendingReads
          have he2 : bufferedBytes { buffer := stack.buffer, pendingWrites := stack.pendingWrites + 1, pendingReads := stack.pendingReads } = bufferedBytes stack :=
            bufferedBytes_congr _ _ rfl
          rw [he2] at hba
          simp at hba
          omega
        · omega
        · have hcs := countFor_set_same s index hlt
            { slotId := some sid, chunk := some (b.drop (s.maxCapacity - s.length).toNat),
              callbackId := s.allocBuffer[index].callbackId } (by simp [hsid]) sid
          simp
          omega
        · show (0 : Int) ≤ stack.pendingReads
          omega
        · intro hk
          exact absurd hprz hk
        · intro _
          exact hprz
        · exact take_set_self _ _ _
        · intro sid' hne
          exact countFor_set_same s index hlt _ (by simp [hsid]) sid'
        · intro e' he'
          rcases List.mem_or_eq_of_mem_set he' with hmem | heq
          · exact hent0 e' hmem
          · subst heq
            exact ⟨sid, rfl, hsidlt⟩
      next hc =>
        have hprz : stack.pendingReads ≠ 0 := hc
        have hb : stack.buffer = [] := hprb hprz
        have hbs : ({ stack with buffer := stack.buffer ++ [some (b.take (s.maxCapacity - s.length).toNat)], pendingWrites := stack.pendingWrites + 1 } : Slot).buffer =
            (some (b.take (s.maxCapacity - s.length).toNat) : Option ByteChunk) :: [] := by
          show stack.buffer ++ _ = _
          rw [hb]
          rfl
        rw [readOn_pop_some _ _ _ _ _ hbs hprz]
        split
        next =>
          refine dispinv_update s index sid stack _ _ _ _ _
            ⟨hlen0, hcap0, hent0, hslots0, hpre0⟩ hstack ?_ ?_ ?_ ?_ ?_ ?_ ?_ ?_ ?_
          · simp [bufferedBytes, hb]
            omega
          · simp
            omega
          · have hbl : stack.buffer.length = 0 := by rw [hb]; rfl
            have hcs := countFor_set_same s index hlt
              { slotId := some sid, chunk := some (b.drop (s.maxCapacity - s.length).toNat),
                callbackId := s.allocBuffer[index].callbackId } (by simp [hsid]) sid
            simp
            omega
          · show (0 : Int) ≤ stack.pendingReads - 1
            omega
          · intro _
            rfl
          · intro hex
            obtain ⟨e2, he2, hesid2⟩ := hex
            exact absurd (hpre0 e2 he2 sid hesid2 stack hstack) hprz
          · exact take_set_self _ _ _
          · intro sid' hne
            exact countFor_set_same s index hlt _ (by simp [hsid]) sid'
          · intro e' he'
            rcases List.mem_or_eq_of_mem_set he' with hmem | heq
            · exact hent0 e' hmem
            · subst heq
              exact ⟨sid, rfl, hsidlt⟩
        next hfail =>
          exact absurd rfl hfail

theorem dispatchIter_nonfull_over_realloc (s : SC) (index : Nat) (s1 : SC) (i1 : Nat)
    (b : ByteChunk)
    (hlt : index < s.allocBuffer.length)
    (hfull : ¬ s.maxCapacity - s.length ≤ 0)
    (hchunk : s.allocBuffer[index].chunk = some b)
    (hofl : (b.length : Int) > s.maxCapacity - s.length)
    (hre : s.reallocate = true)
    (hiter : dispatchIter s index = DispRes.cont s1 i1) :
    HasMalformed s1 i1 := by
  unfold dispatchIter at hiter
  rw [dif_pos hlt] at hiter
  rcases hsid : s.allocBuffer[index].slotId with _ | sid
  · simp [hsid] at hiter
  · simp only [hsid] at hiter
    rcases hstack : s.slots[sid]? with _ | stack
    · simp [hstack] at hiter
    · simp only [hstack] at hiter
      rw [if_neg hfull] at hiter
      have hle : index ≤ (s.allocBuffer.eraseIdx index).length := by
        rw [length_eraseIdx_lt _ _ hlt]
        omega
      have hmal : ({ slotId := none, chunk := some (b.drop (s.maxCapacity - s.length).toNat), callbackId := none } : AllocEntry) ∈
          (s.allocBuffer.eraseIdx index ++
            [({ slotId := none, chunk := some (b.drop (s.maxCapacity - s.length).toNat), callbackId := none } : AllocEntry)]).drop index := by
        rw [drop_append_small _ _ _ hle]
        exact List.mem_append_right _ (by simp)
      simp [hchunk, hofl, hre] at hiter
      obtain ⟨h1, h2⟩ := hiter
      subst h2
      subst h1
      split
      next =>
        exact ⟨_, hmal, rfl⟩
      next =>
        split
        next =>
          exact ⟨_, hmal, rfl⟩
        next =>
          exact ⟨_, hmal, rfl⟩

theorem dispatchIter_progress (s : SC) (index : Nat) (s1 : SC) (i1 : Nat)
    (hinv : DispInv s index)
    (hiter : dispatchIter s index = DispRes.cont s1 i1) :
    DispInv s1 i1 ∨ HasMalformed s1 i1 := by
  by_cases hlt : index < s.allocBuffer.length
  · by_cases hfull : s.maxCapacity - s.length ≤ 0
    · exact Or.inl (dispatchIter_progress_full s index s1 i1 hinv hlt hfull hiter)
    · rcases hchunk : s.allocBuffer[index].chunk with _ | b
      · exact Or.inl (dispatchIter_nonfull_none s index s1 i1 hinv hlt hfull hchunk hiter)
      · by_cases hofl : (b.length : Int) > s.maxCapacity - s.length
        · cases hre : s.reallocate with
          | true =>
            exact Or.inr (dispatchIter_nonfull_over_realloc s index s1 i1 b hlt hfull
              hchunk hofl hre hiter)
          | false =>
            exact Or.inl (dispatchIter_nonfull_over_seq s index s1 i1 b hinv hlt hfull
              hchunk hofl hre hiter)
        · exact Or.inl (dispatchIter_nonfull_fits s index s1 i1 b hinv hlt hfull
            hchunk hofl hiter)
  · unfold dispatchIter at hiter
    rw [dif_neg hlt] at hiter
    cases hiter

theorem dispatchIter_cont_malformed (s : SC) (index : Nat) (s1 : SC) (i1 : Nat)
    (hmal : HasMalformed s index)
    (hiter : dispatchIter s index = DispRes.cont s1 i1) :
    HasMalformed s1 i1 := by
  by_cases hlt : index < s.allocBuffer.length
  case neg =>
    unfold dispatchIter at hiter
    rw [dif_neg hlt] at hiter
    cases hiter
  case pos =>
  obtain ⟨em, hem, hemnone⟩ := hmal
  have hdrop : s.allocBuffer.drop index =
      s.allocBuffer[index] :: s.allocBuffer.drop (index + 1) :=
    List.drop_eq_getElem_cons hlt
  unfold dispatchIter at hiter
  rw [dif_pos hlt] at hiter
  rcases hsid : s.allocBuffer[index].slotId with _ | sid
  · simp [hsid] at hiter
  · have hem1 : em ∈ s.allocBuffer.drop (index + 1) := by
      rw [hdrop] at hem
      rcases List.mem_cons.mp hem with h0 | h1
      · rw [h0] at hemnone
        rw [hemnone] at hsid
        cases hsid
      · exact h1
    have hm2 : em ∈ (s.allocBuffer.eraseIdx index).drop index := by
      rw [drop_eraseIdx_self]
      exact hem1
    have hle : index ≤ (s.allocBuffer.eraseIdx index).length := by
      rw [length_eraseIdx_lt _ _ hlt]
      omega
    have hm3 : ∀ x : AllocEntry, em ∈ (s.allocBuffer.set index x).drop index := by
      intro x
      rw [drop_set_self _ _ _ hlt]
      exact List.mem_cons_of_mem _ hem1
    have hm4 : ∀ l2 : List AllocEntry,
        em ∈ ((s.allocBuffer.eraseIdx index) ++ l2).drop index := by
      intro l2
      rw [drop_append_small _ _ _ hle]
      exact List.mem_append_left _ hm2
    simp only [hsid] at hiter
    rcases hstack : s.slots[sid]? with _ | stack
    · simp [hstack] at hiter
    · simp only [hstack] at hiter
      by_cases hfull : s.maxCapacity - s.length ≤ 0
      · rw [if_pos hfull] at hiter
        split at hiter
        next =>
          split at hiter
          next =>
            rw [DispRes.cont.injEq] at hiter
            obtain ⟨h1, h2⟩ := hiter
            subst h2
            subst h1
            exact ⟨em, hm2, hemnone⟩
          next =>
            rw [DispRes.cont.injEq] at hiter
            obtain ⟨h1, h2⟩ := hiter
            subst h2
            subst h1
            exact ⟨em, hem, hemnone⟩
        next =>
          rw [DispRes.cont.injEq] at hiter
          obtain ⟨h1, h2⟩ := hiter
          subst h2
          subst h1
          exact ⟨em, hem1, hemnone⟩
      · rw [if_neg hfull] at hiter
        rcases hchunk : s.allocBuffer[index].chunk with _ | b
        · simp [hchunk] at hiter
          obtain ⟨h1, h2⟩ := hiter
          subst h2
          subst h1
          split
          next => exact ⟨em, hm2, hemnone⟩
          next =>
            split
            next => exact ⟨em, hm2, hemnone⟩
            next => exact ⟨em, hm2, hemnone⟩
        · by_cases hofl : (b.length : Int) > s.maxCapacity - s.length
          · cases hre : s.reallocate with
            | true =>
              simp [hchunk, hofl, hre] at hiter
              obtain ⟨h1, h2⟩ := hiter
              subst h2
              subst h1
              split
              next => exact ⟨em, hm4 _, hemnone⟩
              next =>
                split
                next => exact ⟨em, hm4 _, hemnone⟩
                next => exact ⟨em, hm4 _, hemnone⟩
            | false =>
              simp [hchunk, hofl, hre] at hiter
              obtain ⟨h1, h2⟩ := hiter
              subst h2
              subst h1
              split
              next => exact ⟨em, hm3 _, hemnone⟩
              next =>
                split
                next => exact ⟨em, hm3 _, hemnone⟩
                next => exact ⟨em, hm3 _, hemnone⟩
          · simp [hchunk, hofl] at hiter
            obtain ⟨h1, h2⟩ := hiter
            subst h2
            subst h1
            split
            next => exact ⟨em, hm2, hemnone⟩
            next =>
              split
              next => exact ⟨em, hm2, hemnone⟩
              next => exact ⟨em, hm2, hemnone⟩

theorem scinv_dispinv (s : SC) (n : Nat) (hinv : SCInv s) : DispInv s n := by
  obtain ⟨h1, h2, h3, h4, h5⟩ := hinv
  exact ⟨h1, h2, h3, h4, fun e he => h5 e (List.take_subset n s.allocBuffer he)⟩

theorem dispinv_done_scinv (s : SC) (n : Nat) (hinv : DispInv s n)
    (hn : s.allocBuffer.length ≤ n) : SCInv s := by
  obtain ⟨h1, h2, h3, h4, h5⟩ := hinv
  refine ⟨h1, h2, h3, h4, fun e he => ?_⟩
  exact h5 e (by rw [List.take_of_length_le hn]; exact he)

theorem dispatch_malformed_none (s : SC) (index : Nat) (hmal : HasMalformed s index) :
    ∀ fuel, dispatchAllocs s index fuel = none := by
  intro fuel
  induction fuel generalizing s index with
  | zero => rfl
  | succ fuel ih =>
    rcases hres : dispatchIter s index with _ | s2 | ⟨s2, i2⟩
    · simp [dispatchAllocs, hres]
    · obtain ⟨_, hge⟩ := dispatchIter_done s index s2 hres
      obtain ⟨em, hem, _⟩ := hmal
      rw [List.drop_eq_nil_of_le hge] at hem
      cases hem
    · simp only [dispatchAllocs, hres]
      exact ih s2 i2 (dispatchIter_cont_malformed s index s2 i2 hmal hres)

theorem dispatch_inv (fuel : Nat) : ∀ (s : SC) (index : Nat) (s1 : SC),
    DispInv s index → dispatchAllocs s index fuel = some s1 → SCInv s1 := by
  induction fuel with
  | zero => intro s index s1 _ h; cases h
  | succ fuel ih =>
    intro s index s1 hinv h
    rcases hres : dispatchIter s index with _ | s2 | ⟨s2, i2⟩
    · simp only [dispatchAllocs, hres] at h
      cases h
    · simp only [dispatchAllocs, hres] at h
      obtain ⟨heq, hge⟩ := dispatchIter_done s index s2 hres
      rw [heq] at h
      cases h
      exact dispinv_done_scinv s index hinv hge
    · simp only [dispatchAllocs, hres] at h
      rcases dispatchIter_progress s index s2 i2 hinv hres with hinv2 | hmal2
      · exact ih s2 i2 s1 hinv2 h
      · rw [dispatch_malformed_none s2 i2 hmal2 fuel] at h
        cases h

theorem mkStreamCache_inv (cap : Int) (realloc : Bool) (hcap : 0 ≤ cap) :
    SCInv (mkStreamCache (some cap) realloc) := by
  refine ⟨rfl, hcap, ?_, ?_, ?_⟩
  · intro e he
    exact absurd he (List.not_mem_nil e)
  · intro sid slot hslot
    cases hslot
  · intro e he
    exact absurd he (List.not_mem_nil e)

theorem newStream_inv (s : SC) (hinv : SCInv s) : SCInv s.newStream := by
  obtain ⟨h1, h2, h3, h4, h5⟩ := hinv
  refine ⟨?_, h2, ?_, ?_, ?_⟩
  · show s.length = totalBuffered s.newStream
    unfold totalBuffered SC.newStream
    rw [sum_map_append_one]
    unfold totalBuffered at h1
    have h0 : bufferedBytes ({ buffer := [], pendingWrites := 0, pendingReads := 0 } : Slot) = 0 := rfl
    rw [h0]
    simp
    exact h1
  · intro e he
    obtain ⟨sid', hx, hl⟩ := h3 e he
    refine ⟨sid', hx, ?_⟩
    show sid' < (s.slots ++ [({ buffer := [], pendingWrites := 0, pendingReads := 0 } : Slot)]).length
    rw [List.length_append]
    simp
    omega
  · intro sid slot hslot
    have hslot' : (s.slots ++ [({ buffer := [], pendingWrites := 0, pendingReads := 0 } : Slot)])[sid]? = some slot := hslot
    by_cases hlt : sid < s.slots.length
    · rw [List.getElem?_append_left hlt] at hslot'
      exact h4 sid slot hslot'
    · by_cases heq : sid = s.slots.length
      · subst heq
        rw [List.getElem?_append_right (le_refl _)] at hslot'
        rw [Nat.sub_self] at hslot'
        rw [List.getElem?_cons_zero] at hslot'
        cases hslot'
        have hq0 : queueCountFor s.newStream s.slots.length = 0 := by
          unfold queueCountFor
          rw [List.countP_eq_zero]
          intro e he
          obtain ⟨sid', hx, hl⟩ := h3 e he
          simp [hx, beq_some_eval]
          omega
        refine ⟨?_, le_refl 0, fun _ => rfl⟩
        show (0 : Int) = ((List.length ([] : List (Option ByteChunk)) : Nat) : Int) +
          ((queueCountFor s.newStream s.slots.length : Nat) : Int)
        rw [hq0]
        simp
      · rw [List.getElem?_append_right (by omega)] at hslot'
        rw [List.getElem?_eq_none (by simp; omega)] at hslot'
        cases hslot'
  · intro e he sid hesid slot hslot
    obtain ⟨sid', hx, hl⟩ := h3 e he
    rw [hx] at hesid
    have heq : sid = sid' := (Option.some.inj hesid).symm
    subst heq
    have hslot' : (s.slots ++ [({ buffer := [], pendingWrites := 0, pendingReads := 0 } : Slot)])[sid]? = some slot := hslot
    rw [List.getElem?_append_left hl] at hslot'
    exact h5 e he sid hx slot hslot'

theorem allocOn_inv (s : SC) (sid : Nat) (chunk : Option ByteChunk) (cbId : Nat)
    (fuel : Nat) (s1 : SC) (hinv : SCInv s) (h : allocOn s sid chunk cbId fuel = some s1) :
    SCInv s1 := by
  obtain ⟨h1, h2, h3, h4, h5⟩ := hinv
  unfold allocOn at h
  rcases hstack : s.slots[sid]? with _ | stack
  · simp [hstack] at h
  · simp only [hstack] at h
    obtain ⟨hsw, hpr0, hprb⟩ := h4 sid stack hstack
    have hsidlt : sid < s.slots.length := getElem?_eq_some_lt _ _ _ hstack
    have hq : queueCountFor s sid = List.countP (fun e => e.slotId == some sid) s.allocBuffer := rfl
    split at h
    next hcond =>
      refine dispatch_inv fuel _ 0 s1 ?_ h
      refine dispinv_update s 0 sid stack _ _ _ _ _
        (scinv_dispinv s 0 ⟨h1, h2, h3, h4, h5⟩) hstack ?_ ?_ ?_ ?_ ?_ ?_ ?_ ?_ ?_
      · have hbb : bufferedBytes { stack with pendingWrites := stack.pendingWrites + 1 } =
            bufferedBytes stack := rfl
        omega
      · exact h2
      · show stack.pendingWrites + 1 = (stack.buffer.length : Int) +
          (((s.allocBuffer ++ [({ slotId := some sid, chunk := chunk, callbackId := some cbId } : AllocEntry)]).countP
            (fun e => e.slotId == some sid) : Nat) : Int)
        rw [List.countP_append]
        simp [beq_some_eval]
        omega
      · exact hpr0
      · exact fun hk => hprb hk
      · intro hex
        obtain ⟨e2, he2, _⟩ := hex
        simp at he2
      · rfl
      · intro sid' hne
        have hq' : queueCountFor s sid' =
            List.countP (fun e => e.slotId == some sid') s.allocBuffer := rfl
        rw [List.countP_append]
        have hz : List.countP (fun e => e.slotId == some sid')
            [({ slotId := some sid, chunk := chunk, callbackId := some cbId } : AllocEntry)] = 0 := by
          simp [beq_some_eval]
          omega
        omega
      · intro e he
        rcases List.mem_append.mp he with hmem | hmem
        · exact h3 e hmem
        · rw [List.mem_singleton] at hmem
          subst hmem
          exact ⟨sid, rfl, hsidlt⟩
    next hcond =>
      push_neg at hcond
      obtain ⟨hpw0, hprne⟩ := hcond
      cases h
      refine dispinv_done_scinv _ s.allocBuffer.length ?_ (le_refl _)
      refine dispinv_update s s.allocBuffer.length sid stack _ _ _ _ _
        (scinv_dispinv s _ ⟨h1, h2, h3, h4, h5⟩) hstack ?_ ?_ ?_ ?_ ?_ ?_ ?_ ?_ ?_
      · have hbb : bufferedBytes { stack with pendingReads := stack.pendingReads - 1 } =
            bufferedBytes stack := rfl
        omega
      · exact h2
      · show stack.pendingWrites = (stack.buffer.length : Int) +
          ((s.allocBuffer.countP (fun e => e.slotId == some sid) : Nat) : Int)
        omega
      · show (0 : Int) ≤ stack.pendingReads - 1
        omega
      · intro hk
        exact hprb hprne
      · intro hex
        obtain ⟨e2, he2, hesid2⟩ := hex
        rw [List.take_of_length_le (le_refl _)] at he2
        exact absurd (h5 e2 he2 sid hesid2 stack hstack) hprne
      · rfl
      · intro sid' _
        rfl
      · exact h3

theorem readBytesOn_inv (s : SC) (sid : Nat) (fuel : Nat) (s1 : SC)
    (hinv : SCInv s) (h : readBytesOn s sid fuel = some s1) : SCInv s1 := by
  obtain ⟨h1, h2, h3, h4, h5⟩ := hinv
  unfold readBytesOn at h
  rcases hstack : s.slots[sid]? with _ | stack
  · simp [hstack] at h
  · simp only [hstack] at h
    obtain ⟨hsw, hpr0, hprb⟩ := h4 sid stack hstack
    have hsidlt : sid < s.slots.length := getElem?_eq_some_lt _ _ _ hstack
    have hq : queueCountFor s sid = List.countP (fun e => e.slotId == some sid) s.allocBuffer := rfl
    rcases hbc : stack.buffer with _ | ⟨c, rest⟩
    · have hro : readOn { stack with pendingReads := stack.pendingReads + 1 } s.length none =
          { slot := { stack with pendingReads := stack.pendingReads + 1 }, length := s.length,
            success := false, usedAlt := false } := by
        unfold readOn readOnAlt
        simp [hbc]
      rw [hro] at h
      simp at h
      refine dispatch_inv fuel _ 0 s1 ?_ h
      refine dispinv_update s 0 sid stack _ _ _ _ _
        (scinv_dispinv s 0 ⟨h1, h2, h3, h4, h5⟩) hstack ?_ ?_ ?_ ?_ ?_ ?_ ?_ ?_ ?_
      · have hbb : bufferedBytes { stack with pendingReads := stack.pendingReads + 1 } =
            bufferedBytes stack := rfl
        omega
      · exact h2
      · show stack.pendingWrites = (stack.buffer.length : Int) +
          ((s.allocBuffer.countP (fun e => e.slotId == some sid) : Nat) : Int)
        omega
      · show (0 : Int) ≤ stack.pendingReads + 1
        omega
      · intro _
        exact hbc
      · intro hex
        obtain ⟨e2, he2, _⟩ := hex
        simp at he2
      · rfl
      · intro sid' _
        rfl
      · exact h3
    · have hpr00 : stack.pendingReads = 0 := by
        by_contra hk
        rw [hprb hk] at hbc
        cases hbc
      have hne1 : ({ stack with pendingReads := stack.pendingReads + 1 } : Slot).pendingReads ≠ 0 := by
        show stack.pendingReads + 1 ≠ 0
        omega
      have hbs : ({ stack with pendingReads := stack.pendingReads + 1 } : Slot).buffer = c :: rest := hbc
      rcases hcn : c with _ | cb
      · rw [hcn] at hbs
        rw [readOn_pop_none _ _ _ _ hbs hne1] at h
        simp at h
        subst h
        rw [hbc] at hsw
        simp at hsw
        refine dispinv_done_scinv _ s.allocBuffer.length ?_ (le_refl _)
        refine dispinv_update s s.allocBuffer.length sid stack _ _ _ _ _
          (scinv_dispinv s _ ⟨h1, h2, h3, h4, h5⟩) hstack ?_ ?_ ?_ ?_ ?_ ?_ ?_ ?_ ?_
        · unfold bufferedBytes
          simp [hbc, hcn]
          omega
        · exact h2
        · show stack.pendingWrites - 1 = ((rest.length : Nat) : Int) +
            ((s.allocBuffer.countP (fun e => e.slotId == some sid) : Nat) : Int)
          omega
        · show (0 : Int) ≤ stack.pendingReads
          omega
        · intro hk
          exact absurd hpr00 hk
        · intro _
          exact hpr00
        · rfl
        · intro sid' _
          rfl
        · exact h3
      · rw [hcn] at hbs
        rw [readOn_pop_some _ _ _ _ _ hbs hne1] at h
        simp at h
        subst h
        rw [hbc] at hsw
        simp at hsw
        refine dispinv_done_scinv _ s.allocBuffer.length ?_ (le_refl _)
        refine dispinv_update s s.allocBuffer.length sid stack _ _ _ _ _
          (scinv_dispinv s _ ⟨h1, h2, h3, h4, h5⟩) hstack ?_ ?_ ?_ ?_ ?_ ?_ ?_ ?_ ?_
        · unfold bufferedBytes
          simp [hbc, hcn]
          omega
        · show s.length - ((cb.length : Nat) : Int) ≤ s.maxCapacity
          omega
        · show stack.pendingWrites - 1 = ((rest.length : Nat) : Int) +
            ((s.allocBuffer.countP (fun e => e.slotId == some sid) : Nat) : Int)
          omega
        · show (0 : Int) ≤ stack.pendingReads
          omega
        · intro hk
          exact absurd hpr00 hk
        · intro _
          exact hpr00
        · rfl
        · intro sid' _
          rfl
        · exact h3

theorem step_inv (s s1 : SC) (hinv : SCInv s) (hstep : SCStep s s1) : SCInv s1 := by
  cases hstep with
  | newSlot => exact newStream_inv s hinv
  | enqueue sid chunk cbId fuel t h => exact allocOn_inv s sid chunk cbId fuel s1 hinv h
  | dispatch fuel t h => exact dispatch_inv fuel s 0 s1 (scinv_dispinv s 0 hinv) h
  | read sid fuel t h => exact readBytesOn_inv s sid fuel s1 hinv h

theorem reached_inv (cap : Int) (realloc : Bool) (s : SC) (hcap : 0 ≤ cap)
    (hr : SCReached cap realloc s) : SCInv s := by
  induction hr with
  | refl => exact mkStreamCache_inv cap realloc hcap
  | tail hab hbc ih => exact step_inv _ _ ih hbc

theorem totalBuffered_nonneg (s : SC) : 0 ≤ totalBuffered s := by
  unfold totalBuffered
  apply List.sum_nonneg
  intro x hx
  simp at hx
  obtain ⟨sl, _, hval⟩ := hx
  omega

/-- C2: at every stable point of the reassembly buffer — any state reached
from a fresh cache by completed admit (`cacheBytesOn`/`#allocOn`),
dispatcher (`dispatchAllocs`) and read (`readBytesOn`) steps and stream
registrations, with no capacity change in between (capacity nonnegative) —
the global stored byte count satisfies `0 ≤ length ≤ maxCapacity`. -/
theorem c2_capacity_invariant (cap : Int) (realloc : Bool) (s : SC)
    (hcap : 0 ≤ cap) (hr : SCReached cap realloc s) :
    0 ≤ s.length ∧ s.length ≤ s.maxCapacity := by
  obtain ⟨h1, h2, _⟩ := reached_inv cap realloc s hcap hr
  refine ⟨?_, h2⟩
  rw [h1]
  exact totalBuffered_nonneg s

/-- Witness for C2 at a concrete two-step run: register a stream on a
capacity-10 cache, then admit a 3-byte chunk. -/
theorem c2_capacity_invariant_witness :
    0 ≤ (10 : Int) ∧
    (0 ≤ ({ slots := [{ buffer := [some [1, 2, 3]], pendingWrites := 1, pendingReads := 0 }], length := 3, reallocate := false, allocBuffer := [], maxCapacity := 10, calledCallbacks := [0] } : SC).length ∧
      ({ slots := [{ buffer := [some [1, 2, 3]], pendingWrites := 1, pendingReads := 0 }], length := 3, reallocate := false, allocBuffer := [], maxCapacity := 10, calledCallbacks := [0] } : SC).length ≤
      ({ slots := [{ buffer := [some [1, 2, 3]], pendingWrites := 1, pendingReads := 0 }], length := 3, reallocate := false, allocBuffer := [], maxCapacity := 10, calledCallbacks := [0] } : SC).maxCapacity) :=
  ⟨by decide,
    c2_capacity_invariant 10 false _ (by decide)
      (Relation.ReflTransGen.tail
        (Relation.ReflTransGen.tail Relation.ReflTransGen.refl
          (SCStep.newSlot (mkStreamCache (some 10) false)))
        (SCStep.enqueue ((mkStreamCache (some 10) false).newStream) 0 (some [1, 2, 3]) 0 3 _
          (by decide)))⟩

/-- C3: in every reachable stable state of the cache (capacity
nonnegative), no slot ever has both a nonzero `pendingWrites` and a
nonzero `pendingReads`: a queued/buffered chunk and a waiting reader are
always matched before the step returns. -/
theorem c3_no_write_read_overlap (cap : Int) (realloc : Bool) (s : SC)
    (hcap : 0 ≤ cap) (hr : SCReached cap realloc s)
    (sid : Nat) (slot : Slot) (hslot : s.slots[sid]? = some slot) :
    ¬ (slot.pendingWrites ≠ 0 ∧ slot.pendingReads ≠ 0) := by
  obtain ⟨h1, h2, h3, h4, h5⟩ := reached_inv cap realloc s hcap hr
  obtain ⟨hsw, hpr0, hprb⟩ := h4 sid slot hslot
  rintro ⟨hw, hrne⟩
  have hb := hprb hrne
  have hqc : queueCountFor s sid = 0 := by
    by_contra hqc
    have hpos : 0 < List.countP (fun e => e.slotId == some sid) s.allocBuffer :=
      Nat.pos_of_ne_zero hqc
    obtain ⟨e, he, hpe⟩ := List.countP_pos_iff.mp hpos
    exact absurd (h5 e he sid (eq_of_beq hpe) slot hslot) hrne
  have hbl : slot.buffer.length = 0 := by rw [hb]; rfl
  have hz : slot.pendingWrites = 0 := by omega
  exact hw hz

/-- Witness for C3 at a concrete two-step run: register a stream on a
capacity-12 reallocating cache, then issue a read that finds no data
(leaving `pendingWrites = 0`, `pendingReads = 1`). -/
theorem c3_no_write_read_overlap_witness :
    0 ≤ (12 : Int) ∧
    ¬ ((({ buffer := [], pendingWrites := 0, pendingReads := 1 } : Slot).pendingWrites ≠ 0) ∧
       (({ buffer := [], pendingWrites := 0, pendingReads := 1 } : Slot).pendingReads ≠ 0)) :=
  ⟨by decide,
    c3_no_write_read_overlap 12 true
      { slots := [{ buffer := [], pendingWrites := 0, pendingReads := 1 }], length := 0, reallocate := true, allocBuffer := [], maxCapacity := 12, calledCallbacks := [] }
      (by decide)
      (Relation.ReflTransGen.tail
        (Relation.ReflTransGen.tail Relation.ReflTransGen.refl
          (SCStep.newSlot (mkStreamCache (some 12) true)))
        (SCStep.read ((mkStreamCache (some 12) true).newStream) 0 2 _ (by decide)))
      0 { buffer := [], pendingWrites := 0, pendingReads := 1 } (by decide)⟩

/-- C4: when the dispatcher splits an oversized chunk (15 bytes into a
capacity-10 cache), `reallocate = false` replaces the entry in place with
the same slot, the overflow tail and the original completion, deferring the
callback — as claimed.  But with `reallocate = true` the code spreads the
ARRAY returned by `splice` instead of the removed entry, so the appended
object carries `undefined` stream/stack/callback (modelled as `none`
fields) rather than the same slot, the tail and the original completion,
and the very next loop iteration crashes destructuring it: the admit
returns no completed state for any fuel. -/
theorem c4_overflow_entry_bug :
    (allocOn ((mkStreamCache (some 10) false).newStream) 0 (some overflowChunk15) 7 5 =
      some { slots := [{ buffer := [some [1, 2, 3, 4, 5, 6, 7, 8, 9, 10]], pendingWrites := 2, pendingReads := 0 }], length := 10, reallocate := false, allocBuffer := [{ slotId := some 0, chunk := some [11, 12, 13, 14, 15], callbackId := some 7 }], maxCapacity := 10, calledCallbacks := [] })
    ∧ dispatchIter reallocMidState 0 = DispRes.cont reallocPostSplitState 0
    ∧ dispatchIter reallocPostSplitState 0 = DispRes.crash
    ∧ (∀ fuel : Nat,
        allocOn ((mkStreamCache (some 10) true).newStream) 0 (some overflowChunk15) 7
          (fuel + 2) = none) := by
  refine ⟨by decide, by decide, by decide, ?_⟩
  intro fuel
  show dispatchAllocs reallocMidState 0 (fuel + 2) = none
  have h1 : dispatchIter reallocMidState 0 = DispRes.cont reallocPostSplitState 0 := by decide
  have h2 : dispatchIter reallocPostSplitState 0 = DispRes.crash := by decide
  simp only [dispatchAllocs, h1, h2]

/-- Witness for C9 (amended) at concrete probes of a 100-byte resource:
`headHandler` offset 150 gives size −50 (destroyed with start/totalSize);
offset 100 gives size 0 (ended early, one zero-sized segment built but
never started). -/
theorem c9_zero_negative_amended_witness :
    (200 ≤ 200 ∧ 200 < 300 ∧ 1 ≤ (mkStore none 0 5 5).chunks) ∧
    ((initHeadModel (mkStore none 0 5 5) (some 150)
        [some { status := 200, headers :=
          { contentLength := some 100, contentRange := none, acceptRanges := true } }]).2.2 =
      InitOutcome.destroyed
        (initHeadModel (mkStore none 0 5 5) (some 150)
          [some { status := 200, headers :=
            { contentLength := some 100, contentRange := none, acceptRanges := true } }]).2.1.start
        (initHeadModel (mkStore none 0 5 5) (some 150)
          [some { status := 200, headers :=
            { contentLength := some 100, contentRange := none, acceptRanges := true } }]).2.1.totalSize) ∧
    ((initHeadModel (mkStore none 0 5 5) (some 100)
        [some { status := 200, headers :=
          { contentLength := some 100, contentRange := none, acceptRanges := true } }]).2.2 =
      InitOutcome.endedEarly ∧
      (initHeadModel (mkStore none 0 5 5) (some 100)
        [some { status := 200, headers :=
          { contentLength := some 100, contentRange := none, acceptRanges := true } }]).2.1.ended = true ∧
      (initHeadModel (mkStore none 0 5 5) (some 100)
        [some { status := 200, headers :=
          { contentLength := some 100, contentRange := none, acceptRanges := true } }]).2.1.chunkStack.length = 1) :=
  ⟨by decide,
    (c9_zero_negative_amended (mkStore none 0 5 5) (some 150)
      { status := 200, headers :=
        { contentLength := some 100, contentRange := none, acceptRanges := true } }
      (by decide) (by decide) (by decide)).1 (-50) (by decide) (by decide),
    (c9_zero_negative_amended (mkStore none 0 5 5) (some 100)
      { status := 200, headers :=
        { contentLength := some 100, contentRange := none, acceptRanges := true } }
      (by decide) (by decide) (by decide)).2 (by decide)⟩
